import Mathlib

/-!
Verification development for the AmberPipeline asset subsystem
(`AssetPacker.cpp`, `ResourceManager.cpp`, `ResourceTypes.h`).

The C++ code is shallowly embedded: `std::string` values (resource names,
package paths) and byte buffers are modelled as `List Nat` with every entry
below 256; machine integers are `Nat` with explicit `% 2^32` / `% 2^64`
where the C++ arithmetic wraps; fallible operations return `Option` or a
`Bool × _` pair mirroring the C++ return value.  External libraries that the
repository only calls (zlib deflate/inflate) are abstract function
parameters; everything else is translated from the source.
-/

namespace AmberPipeline

/-- A byte string: the contents of a `std::string` or `std::vector<uint8_t>`. -/
abbrev Bytes := List Nat

/-! ## FNV-1a hashing (ResourceManager.cpp `GenerateAssetID`, AssetPacker.cpp `CalculateHash`) -/

/-- Canonical FNV-1a-32 over a byte sequence: offset basis 2166136261,
prime 16777619, xor the byte then multiply, all modulo `2^32`. -/
def fnv1a32 (bs : Bytes) : Nat :=
  bs.foldl (fun h b => ((h ^^^ b) * 16777619) % 4294967296) 2166136261

/-- One step of the C++ `GenerateAssetID` loop.  The code iterates the
`char`s of the `std::string` and evaluates `static_cast<uint32_t>(c)`;
on the x86-64 Linux target `char` is signed, so a byte `b ≥ 0x80` is
sign-extended to `2^32 - 256 + b` before being xor-ed in. -/
def signExtByte (b : Nat) : Nat :=
  if b < 128 then b else 4294967040 + b

/-- `ResourceManager::GenerateAssetID` (ResourceManager.cpp lines 435-447):
FNV-1a-32 over the bytes of the name, except that each byte goes through the
signed-`char` cast of the source. -/
def GenerateAssetID (name : Bytes) : Nat :=
  name.foldl (fun h b => ((h ^^^ signExtByte b) * 16777619) % 4294967296) 2166136261

/-- FNV-1a-64 used by `AssetPacker::CalculateHash` for the content hash
field. The input pointer there is `const uint8_t*`, so no sign extension. -/
def fnv1a64 (bs : Bytes) : Nat :=
  bs.foldl (fun h b => ((h ^^^ b) * 1099511628211) % 18446744073709551616)
    14695981039346656037

/-- ASCII code of the lowercase hex digit for `n < 16`
(`std::hex` formatting with `setfill('0')`). -/
def hexDigit (n : Nat) : Nat := if n < 10 then 48 + n else 87 + n

/-- The 16-character zero-padded lowercase hex rendering of a `uint64_t`,
as produced by `ss << std::hex << std::setw(16) << std::setfill('0')`. -/
def hex16 (n : Nat) : Bytes :=
  (List.range 16).map (fun i => hexDigit (n / 16 ^ (15 - i) % 16))

/-- `AssetPacker::CalculateHash` output: `strncpy(outHash, hashStr.c_str(), 32)`
copies the 16 hex digits and zero-pads the 32-byte field. -/
def hashField (bs : Bytes) : Bytes := hex16 (fnv1a64 bs) ++ List.replicate 16 0

/-! ## CRC32 (AssetPacker.cpp `CalculateChecksum`, lines 410-428) -/

/-- Eight LSB-first rounds with polynomial `0xEDB88320`: the inner
`for (j = 0; j < 8; ++j)` loop of `CalculateChecksum`. -/
def crc32Round (c : Nat) : Nat :=
  if c % 2 = 1 then (c / 2) ^^^ 0xEDB88320 else c / 2

/-- Process one input byte: `crc ^= bytes[i]` followed by the eight rounds. -/
def crc32Step (crc b : Nat) : Nat :=
  (List.range 8).foldl (fun c _ => crc32Round c) (crc ^^^ b)

/-- `AssetPacker::CalculateChecksum`: bitwise CRC32, initial register
`0xFFFFFFFF`, final complement (`return ~crc` on `uint32_t`). -/
def crc32 (bs : Bytes) : Nat :=
  0xFFFFFFFF ^^^ bs.foldl crc32Step 0xFFFFFFFF

/-- The UTF-8 bytes of an ASCII string literal, for concrete test inputs. -/
def sbytes (s : String) : Bytes := s.data.map Char.toNat

/-- A sanity example: the hash is over the bytes, not the characters. -/
example : sbytes "hello" = [104, 101, 108, 108, 111] := by decide

/-! ## Claim C4 -/

/-- C4, counterexample.  The claim asserts `GenerateAssetID "hello" =
0xF80C3B18 = 4161280280`; in fact the code returns `0x4F9F2CAB`, the claimed
hex and decimal values do not even denote the same number, and for a
non-ASCII name (here the UTF-8 bytes of `é`) the signed-`char` cast makes the
result differ from canonical FNV-1a-32. -/
theorem C4_counterexample :
    GenerateAssetID (sbytes "hello") ≠ 0xF80C3B18 ∧
    GenerateAssetID (sbytes "hello") ≠ 4161280280 ∧
    GenerateAssetID [0xC3, 0xA9] ≠ fnv1a32 [0xC3, 0xA9] := by
  refine ⟨by decide, by decide, by decide⟩

/-- C4, amended: for every logical name whose bytes are ASCII (`< 0x80`,
so the signed-`char` cast is the identity) the Manager's ID generation
equals canonical FNV-1a-32 over the UTF-8 bytes of the name; in particular
`GenerateAssetID "hello" = 0x4F9F2CAB = 1335831723`. -/
theorem C4_generateAssetID_fnv1a32 :
    (∀ name : Bytes, (∀ b ∈ name, b < 128) →
      GenerateAssetID name = fnv1a32 name) ∧
    GenerateAssetID (sbytes "hello") = 0x4F9F2CAB ∧
    (0x4F9F2CAB : Nat) = 1335831723 := by
  refine ⟨fun name h => ?_, by decide, by decide⟩
  unfold GenerateAssetID fnv1a32
  exact List.foldl_ext _ _ _ fun a b hb => by
    simp [signExtByte, h b hb]

/-- C4, witness: the amended theorem applied at the concrete name `"hello"`. -/
theorem C4_witness :
    GenerateAssetID (sbytes "hello") = fnv1a32 (sbytes "hello") :=
  C4_generateAssetID_fnv1a32.1 (sbytes "hello") (by decide)

/-! ## Association lists

`std::unordered_map` is modelled as an association list with distinct keys;
`m[k] = v` is `updateA` (overwrite in place, append when absent), `find` is
`lookupA`, `erase` is `eraseA`.  Iteration order of `std::unordered_map` is
unspecified in C++; the model fixes it to insertion order. -/

def lookupA {α β : Type} [DecidableEq α] : List (α × β) → α → Option β
  | [], _ => none
  | (k, v) :: r, key => if key = k then some v else lookupA r key

def updateA {α β : Type} [DecidableEq α] : List (α × β) → α → β → List (α × β)
  | [], key, v => [(key, v)]
  | (k, w) :: r, key, v =>
    if key = k then (k, v) :: r else (k, w) :: updateA r key v

def eraseA {α β : Type} [DecidableEq α] : List (α × β) → α → List (α × β)
  | [], _ => []
  | (k, w) :: r, key => if key = k then r else (k, w) :: eraseA r key

/-! ## Data model (ResourceTypes.h)

`ResourceType` and `CompressionType` are `enum class … : uint32_t`; the
manager also keeps raw `uint32_t` values read from disk, so both are plain
`Nat` here (`UNKNOWN = 0 … SCRIPT = 9`; `NONE = 0, DEFLATE = 1, LZ4 = 2,
ZSTD = 3, BC7 = 4, ASTC = 5`). -/

/-- `struct ResourceMetadata` (ResourceTypes.h lines 38-49).  `name` holds
the logical-name bytes of the 256-byte NUL-terminated field (at most 255 of
them), `hash` the 32-byte content-hash field; `reserved` is always zero and
is materialised only when serialising. -/
structure ResourceMetadata where
  id : Nat
  type : Nat
  offset : Nat
  size : Nat
  name : Bytes
  flags : Nat
  compressionType : Nat
  originalSize : Nat
  hash : Bytes
  deriving DecidableEq

/-! ## Packer (AssetPacker.cpp) -/

/-- The filename part of a path: the bytes after the last `/` (byte 47),
as `fs::path::filename` on the Linux target. -/
def afterLastSlash (p : Bytes) : Bytes :=
  p.foldl (fun acc b => if b = 47 then [] else acc ++ [b]) []

/-- Drop everything from the last `.` (byte 46) on, if any: the
`find_last_of('.')` + `substr` step of `AssetPacker::GetResourceName`. -/
def stripLastDot (fn : Bytes) : Bytes :=
  if 46 ∈ fn then ((fn.reverse.dropWhile (fun b => b ≠ 46)).tail).reverse else fn

/-- `AssetPacker::GetResourceName` (lines 478-489): basename of the path
with the extension stripped. -/
def GetResourceName (filePath : Bytes) : Bytes :=
  stripLastDot (afterLastSlash filePath)

/-- `fs::path::extension` of a filename: the suffix from the last dot,
empty when there is no dot or the only dot is the leading character. -/
def extOf (fn : Bytes) : Bytes :=
  let after := fn.reverse.takeWhile (fun b => b ≠ 46)
  if after.length = fn.length then []
  else if after.length + 1 = fn.length then []
  else 46 :: after.reverse

/-- `::tolower` on an ASCII byte (the code lowercases the extension). -/
def lowerByte (b : Nat) : Nat := if 65 ≤ b ∧ b ≤ 90 then b + 32 else b

/-- `AssetPacker::DetectResourceType` (lines 452-476): case-insensitive
extension table. -/
def DetectResourceType (filePath : Bytes) : Nat :=
  let ext := (extOf (afterLastSlash filePath)).map lowerByte
  if ext = sbytes ".png" ∨ ext = sbytes ".jpg" ∨ ext = sbytes ".jpeg" ∨
     ext = sbytes ".bmp" ∨ ext = sbytes ".tga" ∨ ext = sbytes ".dds" ∨
     ext = sbytes ".ktx2" then 1
  else if ext = sbytes ".obj" ∨ ext = sbytes ".fbx" ∨ ext = sbytes ".gltf" ∨
     ext = sbytes ".glb" ∨ ext = sbytes ".mdl" then 3
  else if ext = sbytes ".mat" ∨ ext = sbytes ".mtl" then 4
  else if ext = sbytes ".hlsl" ∨ ext = sbytes ".glsl" ∨ ext = sbytes ".vert" ∨
     ext = sbytes ".frag" ∨ ext = sbytes ".comp" ∨ ext = sbytes ".shader" then 5
  else if ext = sbytes ".wav" ∨ ext = sbytes ".mp3" ∨ ext = sbytes ".ogg" ∨
     ext = sbytes ".flac" then 6
  else if ext = sbytes ".anim" ∨ ext = sbytes ".animation" then 7
  else if ext = sbytes ".particle" ∨ ext = sbytes ".psys" then 8
  else if ext = sbytes ".lua" ∨ ext = sbytes ".py" ∨ ext = sbytes ".js" ∨
     ext = sbytes ".script" then 9
  else 0

/-- The mutable state of an `AssetPacker` instance. -/
structure PackerState where
  version : Nat
  compressionLevel : Nat
  metadataList : List ResourceMetadata
  resourceDataList : List Bytes
  processedFiles : List Bytes
  nameToId : List (Bytes × Nat)
  nextResourceId : Nat
  deriving DecidableEq

/-- The freshly constructed packer (`AssetPacker::AssetPacker`):
version 1, compression off, resource IDs starting at 1. -/
def initPacker : PackerState :=
  { version := 1, compressionLevel := 0, metadataList := [],
    resourceDataList := [], processedFiles := [], nameToId := [],
    nextResourceId := 1 }

/-- `AssetPacker::SetCompressionLevel`: clamp to `[0, 9]`. -/
def SetCompressionLevel (ps : PackerState) (level : Int) : PackerState :=
  { ps with compressionLevel := (max 0 (min 9 level)).toNat }

/-- The compression decision of `ProcessResource` (lines 238-275), with the
zlib `DeflateCompress` as an abstract parameter returning `[]` on failure
exactly as the wrapper does.  Result: (stored payload, compressionType,
flags).  For level > 0 the chosen codec is always DEFLATE (the texture
branch is commented out in the source); the compressed output is kept only
when strictly smaller than the original. -/
def chosenPayload (deflate : Bytes → Nat → Bytes) (lvl : Nat) (content : Bytes) :
    Bytes × Nat × Nat :=
  if 0 < lvl then
    let d := deflate content lvl
    if d = [] ∨ content.length ≤ d.length then (content, 0, 0) else (d, 1, 1)
  else (content, 0, 0)

/-- The resource-ID step of `ProcessResource` (lines 221-228): reuse the
ID mapped to the logical name, otherwise take `m_nextResourceId`. -/
def assignedId (ps : PackerState) (nm : Bytes) : Nat :=
  match lookupA ps.nameToId nm with
  | some i => i
  | none => ps.nextResourceId

/-- The name→ID map after the ID step. -/
def assignedNameMap (ps : PackerState) (nm : Bytes) : List (Bytes × Nat) :=
  match lookupA ps.nameToId nm with
  | some _ => ps.nameToId
  | none => updateA ps.nameToId nm ps.nextResourceId

/-- `m_nextResourceId` after the ID step (post-increment on fresh names). -/
def assignedNextId (ps : PackerState) (nm : Bytes) : Nat :=
  match lookupA ps.nameToId nm with
  | some _ => ps.nextResourceId
  | none => ps.nextResourceId + 1

/-- `AssetPacker::ProcessResource` (lines 183-288) on a file whose bytes
are `content`: detect the type, derive the logical name, assign (or reuse)
the sequential ID, choose the payload per the compression policy, and
append metadata, payload and path to the packer lists.  The `offset` field
stays 0 until `WriteResourceData`; `name` gets the `strncpy` truncation to
255 bytes. -/
def ProcessResource (deflate : Bytes → Nat → Bytes) (ps : PackerState)
    (resourcePath content : Bytes) (type : Nat) : Bool × PackerState :=
  let actualType := if type = 0 then DetectResourceType resourcePath else type
  if actualType = 0 then (false, ps)
  else
    let resourceName := GetResourceName resourcePath
    let rid := assignedId ps resourceName
    let nameToId2 := assignedNameMap ps resourceName
    let nextId2 := assignedNextId ps resourceName
    let cp := chosenPayload deflate ps.compressionLevel content
    let md : ResourceMetadata :=
      { id := rid, type := actualType, offset := 0, size := cp.1.length,
        name := (resourceName.takeWhile (fun b => b ≠ 0)).take 255,
        flags := cp.2.2, compressionType := cp.2.1,
        originalSize := content.length, hash := hashField cp.1 }
    (true, { ps with
      metadataList := ps.metadataList ++ [md],
      resourceDataList := ps.resourceDataList ++ [cp.1],
      processedFiles := ps.processedFiles ++ [resourcePath],
      nameToId := nameToId2, nextResourceId := nextId2 })

/-- `AssetPacker::AddResource` (lines 56-77) for an existing regular file
whose bytes are `content`: the only packer-side duplicate check is on the
full input path against `m_processedFiles`. -/
def AddResource (deflate : Bytes → Nat → Bytes) (ps : PackerState)
    (resourcePath content : Bytes) (type : Nat) : Bool × PackerState :=
  if resourcePath ∈ ps.processedFiles then (false, ps)
  else ProcessResource deflate ps resourcePath content type

/-- A deflate stub that always fails (compression level 0 never calls it). -/
def deflateNone : Bytes → Nat → Bytes := fun _ _ => []

/-! ## Claim C2 -/

/-- C2, counterexample.  Adding `a/hello.lua` and then `b/hello.py` — two
input files sharing the basename-sans-extension `hello` — does not fail:
the second add also returns `true` and appends a second resource under the
same logical name (even reusing the first resource's ID), where the claim
requires a `Duplicate` rejection. -/
theorem C2_counterexample :
    (let s1 := (AddResource deflateNone initPacker
                  (sbytes "a/hello.lua") [1, 2, 3] 9).2
     let r2 := AddResource deflateNone s1 (sbytes "b/hello.py") [4, 5] 9
     r2.1 = true ∧
     r2.2.metadataList.map (fun m => m.name) = [sbytes "hello", sbytes "hello"] ∧
     r2.2.metadataList.map (fun m => m.id) = [1, 1]) := by
  decide

/-- C2, amended: the packer's only duplicate check is on the full input
path (`m_processedFiles`); a second input with the same path is rejected,
while a second input with a different path but the same
basename-sans-extension is accepted and appended as a second metadata
record under the same logical name, reusing the first record's ID. -/
theorem C2_path_duplicate_only (deflate : Bytes → Nat → Bytes)
    (ps : PackerState) (path content : Bytes) (ty : Nat) :
    (path ∈ ps.processedFiles →
      AddResource deflate ps path content ty = (false, ps)) ∧
    (path ∉ ps.processedFiles →
      ∀ i, lookupA ps.nameToId (GetResourceName path) = some i →
      (if ty = 0 then DetectResourceType path else ty) ≠ 0 →
      (AddResource deflate ps path content ty).1 = true ∧
      (AddResource deflate ps path content ty).2.metadataList.map (fun m => m.id)
        = ps.metadataList.map (fun m => m.id) ++ [i] ∧
      (AddResource deflate ps path content ty).2.metadataList.map (fun m => m.name)
        = ps.metadataList.map (fun m => m.name)
          ++ [((GetResourceName path).takeWhile (fun b => b ≠ 0)).take 255]) := by
  constructor
  · intro h
    simp [AddResource, h]
  · intro hnp i hi hty
    simp [AddResource, hnp, ProcessResource, assignedId, hi, hty]

/-- C2, witness: the amended theorem at a concrete state that already
holds logical name `hello` under ID 1. -/
theorem C2_witness :
    (let s1 := (AddResource deflateNone initPacker
                  (sbytes "a/hello.lua") [1, 2, 3] 9).2
     (AddResource deflateNone s1 (sbytes "b/hello.py") [4, 5] 9).1 = true) := by
  have h := (C2_path_duplicate_only deflateNone
      (AddResource deflateNone initPacker (sbytes "a/hello.lua") [1, 2, 3] 9).2
      (sbytes "b/hello.py") [4, 5] 9).2 (by decide) 1 (by decide) (by decide)
  exact h.1

/-! ## Claim C6 -/

/-- C6: for every input file and compression level > 0 the packer attempts
DEFLATE; if the attempt fails (empty output) or does not strictly shrink
the input, the stored payload is the original bytes with
`compression = NONE` and flags bit 0 clear; otherwise the stored payload is
the DEFLATE output with `compression = DEFLATE`, flags bit 0 set,
`size` the compressed length, and `original_size` the pre-compression
length. -/
theorem C6_compression_policy (deflate : Bytes → Nat → Bytes)
    (ps : PackerState) (path content : Bytes) (ty : Nat)
    (hlvl : 0 < ps.compressionLevel)
    (hty : (if ty = 0 then DetectResourceType path else ty) ≠ 0) :
    ∃ md,
      (ProcessResource deflate ps path content ty).2.metadataList
        = ps.metadataList ++ [md] ∧
      md.originalSize = content.length ∧
      (let d := deflate content ps.compressionLevel
       if d = [] ∨ content.length ≤ d.length then
        md.compressionType = 0 ∧ md.flags % 2 = 0 ∧ md.size = content.length ∧
        (ProcessResource deflate ps path content ty).2.resourceDataList
          = ps.resourceDataList ++ [content]
       else
        md.compressionType = 1 ∧ md.flags % 2 = 1 ∧ md.size = d.length ∧
        (ProcessResource deflate ps path content ty).2.resourceDataList
          = ps.resourceDataList ++ [d]) := by
  by_cases hd : deflate content ps.compressionLevel = [] ∨
      content.length ≤ (deflate content ps.compressionLevel).length <;>
  · simp only [ProcessResource, chosenPayload, if_neg hty, hlvl, if_pos hlvl]
    refine ⟨_, rfl, by simp, ?_⟩
    simp [hd]

/-- C6, witness: a concrete run in which a 6-byte file "compresses" to a
4-byte output, exercising the DEFLATE branch of the policy. -/
theorem C6_witness :
    (let deflate := fun (_ : Bytes) (_ : Nat) => [9, 9, 9, 9]
     let ps := { initPacker with compressionLevel := 6 }
     ∃ md, (ProcessResource deflate ps (sbytes "x/a.lua")
              [1, 2, 3, 4, 5, 6] 9).2.metadataList = ps.metadataList ++ [md] ∧
       md.originalSize = 6 ∧
       (md.compressionType = 1 ∧ md.flags % 2 = 1 ∧ md.size = 4 ∧
        (ProcessResource deflate ps (sbytes "x/a.lua")
          [1, 2, 3, 4, 5, 6] 9).2.resourceDataList
          = ps.resourceDataList ++ [[9, 9, 9, 9]])) := by
  have h := C6_compression_policy (fun _ _ => [9, 9, 9, 9])
    { initPacker with compressionLevel := 6 }
    (sbytes "x/a.lua") [1, 2, 3, 4, 5, 6] 9 (by decide) (by decide)
  simpa using h

/-! ## On-disk serialisation

The code writes the native structs with `ofstream::write`; on the x86-64
target `sizeof(ResourcePackageHeader) = 56` (4 tail padding bytes) and
`sizeof(ResourceMetadata) = 344` (no padding), all integers little-endian. -/

/-- Little-endian bytes of a `uint32_t`. -/
def u32le (n : Nat) : Bytes :=
  [n % 256, n / 256 % 256, n / 65536 % 256, n / 16777216 % 256]

/-- Little-endian bytes of a `uint64_t`. -/
def u64le (n : Nat) : Bytes :=
  [n % 256, n / 256 % 256, n / 65536 % 256, n / 16777216 % 256,
   n / 4294967296 % 256, n / 1099511627776 % 256,
   n / 281474976710656 % 256, n / 72057594037927936 % 256]

/-- The value of a little-endian byte run. -/
def leVal (bs : Bytes) : Nat := bs.foldr (fun b acc => b + 256 * acc) 0

/-- A fixed-size char array holding `bs` zero-padded to `len` bytes. -/
def fixedField (len : Nat) (bs : Bytes) : Bytes :=
  bs.take len ++ List.replicate (len - bs.length) 0

/-- `sizeof(ResourcePackageHeader)` on the target. -/
def headerSize : Nat := 56

/-- `sizeof(ResourceMetadata)` on the target. -/
def metadataSize : Nat := 344

/-- The magic actually written by `WritePackageHeader`:
`strncpy(magic, "AMBPKG01", 8)` followed by `magic[7] = '\0'` leaves
`"AMBPKG0"` plus a NUL byte — the trailing `'1'` is overwritten. -/
def packerMagic : Bytes := [65, 77, 66, 80, 75, 71, 48, 0]

/-- The magic the manager's mount compares against
(`memcmp(header.magic, "AMBPKG01", 8)`). -/
def mountMagic : Bytes := [65, 77, 66, 80, 75, 71, 48, 49]

/-- `struct ResourcePackageHeader` fields (the magic is always
`packerMagic` when produced by this packer). -/
structure PHeader where
  version : Nat
  resourceCount : Nat
  totalSize : Nat
  createTime : Nat
  checksum : Nat
  deriving DecidableEq

/-- Byte image of the header struct: magic, u32 version, u32 count,
u64 totalSize, u64 createTime, u32 checksum, 16 reserved zero bytes and
4 bytes of struct padding. -/
def serializeHeader (h : PHeader) : Bytes :=
  packerMagic ++ u32le h.version ++ u32le h.resourceCount ++
  u64le h.totalSize ++ u64le h.createTime ++ u32le h.checksum ++
  List.replicate 20 0

/-- Byte image of a metadata record (344 bytes). -/
def serializeMetadata (m : ResourceMetadata) : Bytes :=
  u32le m.id ++ u32le m.type ++ u64le m.offset ++ u64le m.size ++
  fixedField 256 m.name ++ u32le m.flags ++ u32le m.compressionType ++
  u64le m.originalSize ++ fixedField 32 m.hash ++ List.replicate 16 0

/-- Overwrite `bs` into `file` at byte position `pos`
(an `ofstream` `seekp` + `write` inside the already-written region). -/
def writeAt (file : Bytes) (pos : Nat) (bs : Bytes) : Bytes :=
  file.take pos ++ bs ++ file.drop (pos + bs.length)

/-- Read `len` bytes at position `pos` (`seekg` + `read`). -/
def readAt (file : Bytes) (pos len : Nat) : Bytes :=
  (file.drop pos).take len

/-- `WriteResourceData`'s offset-assignment loop (lines 332-351): each
record's `offset` becomes the current file position, which starts past the
metadata table and advances by the written payload's length. -/
def assignOffsets (off : Nat) : List (ResourceMetadata × Bytes) → List ResourceMetadata
  | [] => []
  | (md, d) :: rest => { md with offset := off } :: assignOffsets (off + d.length) rest

/-- Byte position of the first payload: header plus metadata table. -/
def packBase (ps : PackerState) : Nat :=
  headerSize + metadataSize * ps.metadataList.length

/-- The metadata table as rewritten with filled-in offsets. -/
def packMeta (ps : PackerState) : List ResourceMetadata :=
  assignOffsets (packBase ps) (ps.metadataList.zip ps.resourceDataList)

/-- `m_totalSize` after the payload loop: final file position. -/
def packTotalSize (ps : PackerState) : Nat :=
  packBase ps + (ps.resourceDataList.map List.length).sum

/-- `AssetPacker::Pack` (lines 106-169) on the write path, for an output
stream successfully opened (the output-path and overwrite checks are
environment conditions).  Step order follows the code: header with
placeholder `totalSize`/`checksum`, metadata table as currently stored,
payloads in insertion order, seek back and rewrite the table with offsets,
then read the header back, set `totalSize`, checksum the post-header
region, and rewrite the header.  The read-backs (`outFile.read`) are
modelled as reading the bytes previously written at those positions. -/
def packFile (ps : PackerState) (createTime : Nat) : Option Bytes :=
  if ps.metadataList.isEmpty then none
  else
    let f1 := serializeHeader
      { version := ps.version, resourceCount := ps.metadataList.length,
        totalSize := 0, createTime := createTime, checksum := 0 }
    let f2 := f1 ++ (ps.metadataList.map serializeMetadata).flatten
    let f3 := f2 ++ ps.resourceDataList.flatten
    let f4 := writeAt f3 headerSize ((packMeta ps).map serializeMetadata).flatten
    let checksum := crc32 (readAt f4 headerSize (packTotalSize ps - headerSize))
    some (writeAt f4 0 (serializeHeader
      { version := leVal (readAt f4 8 4),
        resourceCount := leVal (readAt f4 12 4),
        totalSize := packTotalSize ps,
        createTime := leVal (readAt f4 24 8),
        checksum := checksum }))

/-- All entries of a buffer are bytes. -/
def BytesOK (bs : Bytes) : Prop := ∀ b ∈ bs, b < 256

/-- Packer states reachable through the public API from a fresh packer,
with genuine byte-string inputs (paths and file contents are `char` /
`uint8_t` data in the source, and zlib emits bytes). -/
inductive PackerReach : PackerState → Prop
  | init : PackerReach initPacker
  | setVersion (ps v) : PackerReach ps → PackerReach { ps with version := v }
  | setLevel (ps level) : PackerReach ps →
      PackerReach (SetCompressionLevel ps level)
  | step (deflate ps path content ty) : PackerReach ps →
      BytesOK path → BytesOK content → (∀ bs n, BytesOK (deflate bs n)) →
      PackerReach (ProcessResource deflate ps path content ty).2

/-- Structural facts the packer maintains: the metadata and payload lists
run in lockstep, each record's `size` is its payload's stored length, and
every buffer holds genuine bytes. -/
structure PackerOK (ps : PackerState) : Prop where
  lens : ps.metadataList.length = ps.resourceDataList.length
  sizes : ∀ p ∈ ps.metadataList.zip ps.resourceDataList, p.1.size = p.2.length
  mdBytes : ∀ md ∈ ps.metadataList, BytesOK md.name ∧ BytesOK md.hash
  dataBytes : ∀ d ∈ ps.resourceDataList, BytesOK d


/-! ### Size and value lemmas for the serialisers -/

theorem fixedField_length (len : Nat) (bs : Bytes) : (fixedField len bs).length = len := by
  simp [fixedField]
  omega

theorem serializeHeader_length (h : PHeader) : (serializeHeader h).length = 56 := by
  simp [serializeHeader, packerMagic, u32le, u64le]

theorem serializeMetadata_length (m : ResourceMetadata) :
    (serializeMetadata m).length = 344 := by
  simp [serializeMetadata, u32le, u64le, fixedField_length]

theorem flatten_map_serializeMetadata_length (l : List ResourceMetadata) :
    ((l.map serializeMetadata).flatten).length = 344 * l.length := by
  induction l with
  | nil => simp
  | cons a t ih => simp [ih, serializeMetadata_length]; ring

theorem assignOffsets_length (off : Nat) (l : List (ResourceMetadata × Bytes)) :
    (assignOffsets off l).length = l.length := by
  induction l generalizing off with
  | nil => simp [assignOffsets]
  | cons a t ih => cases a; simp [assignOffsets, ih]

theorem leVal_u32le (v : Nat) : leVal (u32le v) = v % 4294967296 := by
  simp [leVal, u32le]; omega

theorem leVal_u64le (v : Nat) : leVal (u64le v) = v % 18446744073709551616 := by
  simp [leVal, u64le]; omega

/-! ### Byte-boundedness -/

theorem bytesOK_append {a b : Bytes} (ha : BytesOK a) (hb : BytesOK b) :
    BytesOK (a ++ b) := by
  intro x hx
  rcases List.mem_append.1 hx with h | h
  · exact ha x h
  · exact hb x h

theorem bytesOK_flatten {l : List Bytes} (h : ∀ d ∈ l, BytesOK d) :
    BytesOK l.flatten := by
  intro x hx
  rcases List.mem_flatten.1 hx with ⟨d, hd, hxd⟩
  exact h d hd x hxd

theorem bytesOK_u32le (v : Nat) : BytesOK (u32le v) := by
  intro x hx
  simp [u32le] at hx
  rcases hx with h | h | h | h <;> omega

theorem bytesOK_u64le (v : Nat) : BytesOK (u64le v) := by
  intro x hx
  simp [u64le] at hx
  rcases hx with h | h | h | h | h | h | h | h <;> omega

theorem bytesOK_replicate (n : Nat) : BytesOK (List.replicate n 0) := by
  intro x hx
  rcases List.eq_of_mem_replicate hx with rfl
  omega

theorem bytesOK_fixedField {bs : Bytes} (len : Nat) (h : BytesOK bs) :
    BytesOK (fixedField len bs) := by
  refine bytesOK_append (fun x hx => h x (List.mem_of_mem_take hx)) (bytesOK_replicate _)

theorem bytesOK_hashField (bs : Bytes) : BytesOK (hashField bs) := by
  refine bytesOK_append ?_ (bytesOK_replicate _)
  intro x hx
  simp [hex16] at hx
  rcases hx with ⟨i, hi, rfl⟩
  have : fnv1a64 bs / 16 ^ (15 - i) % 16 < 16 := Nat.mod_lt _ (by omega)
  unfold hexDigit
  split <;> omega

theorem bytesOK_serializeMetadata {m : ResourceMetadata}
    (h1 : BytesOK m.name) (h2 : BytesOK m.hash) :
    BytesOK (serializeMetadata m) := by
  unfold serializeMetadata
  repeat
    first
    | exact bytesOK_u32le _
    | exact bytesOK_u64le _
    | exact bytesOK_replicate _
    | exact bytesOK_fixedField _ h1
    | exact bytesOK_fixedField _ h2
    | refine bytesOK_append ?_ ?_

/-! ### Packer state invariants -/

theorem mem_afterLastSlash {p : Bytes} {b : Nat} (h : b ∈ afterLastSlash p) : b ∈ p := by
  suffices H : ∀ (l acc : Bytes), b ∈ l.foldl (fun acc b => if b = 47 then [] else acc ++ [b]) acc → b ∈ acc ∨ b ∈ l by
    rcases H p [] h with h2 | h2
    · simp at h2
    · exact h2
  intro l
  induction l with
  | nil => intro acc h; exact Or.inl h
  | cons c t ih =>
    intro acc h
    rcases ih _ h with h2 | h2
    · by_cases hc : c = 47
      · simp [hc] at h2
      · simp [hc] at h2
        rcases h2 with h3 | h3
        · exact Or.inl h3
        · simp [h3]
    · simp [h2]

theorem mem_stripLastDot {fn : Bytes} {b : Nat} (h : b ∈ stripLastDot fn) : b ∈ fn := by
  unfold stripLastDot at h
  split at h
  · have h2 := List.mem_reverse.1 h
    have hsub : ((fn.reverse.dropWhile (fun b => b ≠ 46)).tail).Sublist fn.reverse :=
      (List.tail_sublist _).trans (List.dropWhile_sublist _)
    exact List.mem_reverse.1 (hsub.mem h2)
  · exact h

theorem bytesOK_getResourceName {p : Bytes} (h : BytesOK p) :
    BytesOK (GetResourceName p) := by
  intro b hb
  exact h b (mem_afterLastSlash (mem_stripLastDot hb))

theorem reach_ok {ps : PackerState} (h : PackerReach ps) : PackerOK ps := by
  induction h with
  | init => exact ⟨rfl, by simp [initPacker], by simp [initPacker], by simp [initPacker]⟩
  | setVersion ps v hr ih => exact ⟨ih.lens, ih.sizes, ih.mdBytes, ih.dataBytes⟩
  | setLevel ps level hr ih => exact ⟨ih.lens, ih.sizes, ih.mdBytes, ih.dataBytes⟩
  | step deflate ps path content ty hr hpath hcontent hdef ih =>
    by_cases hty : (if ty = 0 then DetectResourceType path else ty) = 0
    · simpa only [ProcessResource, if_pos hty] using ih
    · have hcp : BytesOK (chosenPayload deflate ps.compressionLevel content).1 := by
        unfold chosenPayload
        split
        · dsimp only
          split
          · exact hcontent
          · exact hdef content ps.compressionLevel
        · exact hcontent
      simp only [ProcessResource, if_neg hty]
      constructor
      · simp [ih.lens]
      · intro q hq
        rw [List.zip_append (by simp [ih.lens])] at hq
        rcases List.mem_append.1 hq with h2 | h2
        · exact ih.sizes q h2
        · simp at h2
          simp [h2]
      · intro md hmd
        rcases List.mem_append.1 hmd with h2 | h2
        · exact ih.mdBytes md h2
        · simp at h2
          subst h2
          refine ⟨?_, bytesOK_hashField _⟩
          intro b hb
          dsimp at hb
          have hb2 : b ∈ GetResourceName path :=
            (List.takeWhile_sublist _).mem (List.mem_of_mem_take hb)
          exact bytesOK_getResourceName hpath b hb2
      · intro d hd
        rcases List.mem_append.1 hd with h2 | h2
        · exact ih.dataBytes d h2
        · simp at h2
          subst h2
          exact hcp

/-! ### CRC32 bound -/

theorem crc32Round_lt {c : Nat} (h : c < 4294967296) : crc32Round c < 4294967296 := by
  unfold crc32Round
  split
  · exact Nat.xor_lt_two_pow (n := 32) (by omega) (by norm_num)
  · omega

theorem crc32Step_lt {crc b : Nat} (hc : crc < 4294967296) (hb : b < 256) :
    crc32Step crc b < 4294967296 := by
  unfold crc32Step
  have h0 : crc ^^^ b < 4294967296 := Nat.xor_lt_two_pow (n := 32) hc (by omega)
  have H : ∀ (l : List Nat) (c : Nat), c < 4294967296 →
      l.foldl (fun c _ => crc32Round c) c < 4294967296 := by
    intro l
    induction l with
    | nil => intro c hc2; exact hc2
    | cons x t ih => intro c hc2; exact ih _ (crc32Round_lt hc2)
  exact H _ _ h0

theorem crc32_lt {bs : Bytes} (h : BytesOK bs) : crc32 bs < 4294967296 := by
  unfold crc32
  have H : ∀ (l : Bytes) (c : Nat), BytesOK l → c < 4294967296 →
      l.foldl crc32Step c < 4294967296 := by
    intro l
    induction l with
    | nil => intro c _ hc; exact hc
    | cons x t ih =>
      intro c hl hc
      exact ih _ (fun y hy => hl y (List.mem_cons_of_mem x hy))
        (crc32Step_lt hc (hl x (List.mem_cons_self x t)))
  exact Nat.xor_lt_two_pow (n := 32) (by norm_num) (H bs 4294967295 h (by norm_num))


/-! ### Structure of the produced package file -/

theorem writeAt_exact (x y z bs : Bytes) (h : bs.length = y.length) :
    writeAt (x ++ y ++ z) x.length bs = x ++ bs ++ z := by
  unfold writeAt
  rw [List.append_assoc x y z, List.take_left]
  have h2 : x.length + bs.length = (x ++ y).length := by simp [h]
  rw [h2, ← List.append_assoc x y z, List.drop_left]

theorem readAt_serializeHeader (h : PHeader) (rest : Bytes) :
    readAt (serializeHeader h ++ rest) 8 4 = u32le h.version ∧
    readAt (serializeHeader h ++ rest) 12 4 = u32le h.resourceCount ∧
    readAt (serializeHeader h ++ rest) 16 8 = u64le h.totalSize ∧
    readAt (serializeHeader h ++ rest) 24 8 = u64le h.createTime ∧
    readAt (serializeHeader h ++ rest) 32 4 = u32le h.checksum := by
  refine ⟨?_, ?_, ?_, ?_, ?_⟩ <;>
    simp [readAt, serializeHeader, packerMagic, u32le, u64le]

/-- The post-header region of the finished file: rewritten metadata table
followed by the payloads. -/
def packBody (ps : PackerState) : Bytes :=
  ((packMeta ps).map serializeMetadata).flatten ++ ps.resourceDataList.flatten

theorem packBody_length (ps : PackerState)
    (hlen : ps.metadataList.length = ps.resourceDataList.length) :
    (packBody ps).length = packTotalSize ps - headerSize := by
  unfold packBody packTotalSize packBase
  rw [List.length_append, flatten_map_serializeMetadata_length, List.length_flatten]
  rw [packMeta, assignOffsets_length, List.length_zip, ← hlen, Nat.min_self]
  simp only [headerSize, metadataSize]
  omega

/-- The header of the finished file: version/count/createTime as read back
from the placeholder header (mod their field widths), the final total size
and the CRC of the post-header region. -/
def finalHeader (ps : PackerState) (t : Nat) : PHeader :=
  { version := ps.version % 4294967296,
    resourceCount := ps.metadataList.length % 4294967296,
    totalSize := packTotalSize ps,
    createTime := t % 18446744073709551616,
    checksum := crc32 (packBody ps) }

theorem packFile_eq (ps : PackerState) (t : Nat)
    (hne : ps.metadataList ≠ [])
    (hlen : ps.metadataList.length = ps.resourceDataList.length) :
    packFile ps t = some (serializeHeader (finalHeader ps t) ++ packBody ps) := by
  have hn : ps.metadataList.isEmpty = false := by
    simpa [List.isEmpty_iff] using hne
  set h0 : PHeader := ⟨ps.version, ps.metadataList.length, 0, t, 0⟩ with hh0
  set M0 := (ps.metadataList.map serializeMetadata).flatten with hM0
  set M1 := ((packMeta ps).map serializeMetadata).flatten with hM1
  set P := ps.resourceDataList.flatten with hP
  have hM1len : M1.length = M0.length := by
    rw [hM1, hM0, flatten_map_serializeMetadata_length,
      flatten_map_serializeMetadata_length, packMeta, assignOffsets_length,
      List.length_zip, ← hlen, Nat.min_self]
  have hf4 : writeAt (serializeHeader h0 ++ M0 ++ P) headerSize M1
      = serializeHeader h0 ++ M1 ++ P := by
    have h56 : headerSize = (serializeHeader h0).length := by
      rw [serializeHeader_length]
      rfl
    rw [h56]
    exact writeAt_exact _ _ _ _ hM1len
  have hbody : M1 ++ P = packBody ps := rfl
  have hdrop : (serializeHeader h0 ++ M1 ++ P).drop headerSize = M1 ++ P := by
    have h56 : headerSize = (serializeHeader h0).length := by
      rw [serializeHeader_length]
      rfl
    rw [h56, List.append_assoc, List.drop_left]
  have hread : readAt (serializeHeader h0 ++ M1 ++ P) headerSize
      (packTotalSize ps - headerSize) = M1 ++ P := by
    unfold readAt
    rw [hdrop, hbody, ← packBody_length ps hlen, List.take_length]
  have hfinal : writeAt (serializeHeader h0 ++ M1 ++ P) 0
      (serializeHeader (finalHeader ps t))
      = serializeHeader (finalHeader ps t) ++ packBody ps := by
    have h1 : serializeHeader h0 ++ M1 ++ P
        = serializeHeader h0 ++ (M1 ++ P) := List.append_assoc _ _ _
    unfold writeAt
    rw [List.take_zero, h1]
    have h2 : 0 + (serializeHeader (finalHeader ps t)).length
        = (serializeHeader h0).length := by
      rw [serializeHeader_length, serializeHeader_length]
    rw [h2, List.drop_left, ← hbody]
    simp
  have hra := readAt_serializeHeader h0 (M1 ++ P)
  unfold packFile
  rw [hn]
  simp only [Bool.false_eq_true, if_false]
  rw [← hM0, ← hP, ← hM1, hf4]
  rw [List.append_assoc]
  rw [hra.1, hra.2.1, hra.2.2.2.1]
  rw [List.append_assoc] at hread hfinal
  rw [hread, hbody]
  rw [leVal_u32le, leVal_u32le, leVal_u64le]
  exact congrArg some hfinal

instance (bs : Bytes) : Decidable (BytesOK bs) := by
  unfold BytesOK
  infer_instance

theorem assignOffsets_mem (off : Nat) (l : List (ResourceMetadata × Bytes)) :
    ∀ x ∈ assignOffsets off l, ∃ p ∈ l, x = { p.1 with offset := x.offset } := by
  induction l generalizing off with
  | nil => simp [assignOffsets]
  | cons p rest ih =>
    intro x hx
    rcases p with ⟨md, d⟩
    rcases List.mem_cons.1 hx with rfl | hx2
    · exact ⟨(md, d), List.mem_cons_self _ _, rfl⟩
    · rcases ih _ x hx2 with ⟨q, hq, hxq⟩
      exact ⟨q, List.mem_cons_of_mem _ hq, hxq⟩

theorem bytesOK_packBody {ps : PackerState} (hok : PackerOK ps) :
    BytesOK (packBody ps) := by
  refine bytesOK_append (bytesOK_flatten ?_) (bytesOK_flatten hok.dataBytes)
  intro d hd
  rcases List.mem_map.1 hd with ⟨md, hmd, rfl⟩
  rcases assignOffsets_mem _ _ md hmd with ⟨p, hp, hxq⟩
  have hmem : p.1 ∈ ps.metadataList := (List.of_mem_zip hp).1
  have h2 := hok.mdBytes p.1 hmem
  have hname : md.name = p.1.name := by rw [hxq]
  have hhash : md.hash = p.1.hash := by rw [hxq]
  exact bytesOK_serializeMetadata (hname ▸ h2.1) (hhash ▸ h2.2)

/-! ## Claim C3 -/

/-- C3: for every package successfully produced by `pack()`, recomputing
the reference CRC32 (polynomial `0xEDB88320`, LSB-first, initial register
`0xFFFFFFFF`, final complement — the definition of `crc32` here) over all
bytes of the file after the fixed-size header equals the checksum field
stored in the header, and the header's `total_size` field equals the full
file size.  Both fields are re-read from the raw file bytes. -/
theorem C3_checksum_totalSize (ps : PackerState) (t : Nat) (f : Bytes)
    (hr : PackerReach ps)
    (hts : packTotalSize ps < 18446744073709551616)
    (hp : packFile ps t = some f) :
    crc32 (f.drop headerSize) = leVal (readAt f 32 4) ∧
    f.length = leVal (readAt f 16 8) := by
  have hok := reach_ok hr
  have hne : ps.metadataList ≠ [] := by
    intro h
    rw [packFile] at hp
    simp [h] at hp
  rw [packFile_eq ps t hne hok.lens] at hp
  have hf : f = serializeHeader (finalHeader ps t) ++ packBody ps :=
    (Option.some.inj hp).symm
  subst hf
  have hra := readAt_serializeHeader (finalHeader ps t) (packBody ps)
  have hdrop : (serializeHeader (finalHeader ps t) ++ packBody ps).drop headerSize
      = packBody ps := by
    have h56 : headerSize = (serializeHeader (finalHeader ps t)).length := by
      rw [serializeHeader_length]
      rfl
    rw [h56, List.drop_left]
  constructor
  · rw [hdrop, hra.2.2.2.2, leVal_u32le]
    have hlt : crc32 (packBody ps) < 4294967296 := crc32_lt (bytesOK_packBody hok)
    have : (finalHeader ps t).checksum = crc32 (packBody ps) := rfl
    rw [this, Nat.mod_eq_of_lt hlt]
  · rw [hra.2.2.1, leVal_u64le]
    have : (finalHeader ps t).totalSize = packTotalSize ps := rfl
    rw [this, Nat.mod_eq_of_lt hts]
    rw [List.length_append, serializeHeader_length, packBody_length ps hok.lens]
    unfold packTotalSize packBase headerSize
    omega

/-- A one-file packer run used as the concrete witness input:
`hello.script` with contents `"Hello"`, no compression. -/
def psHello : PackerState :=
  (ProcessResource deflateNone initPacker (sbytes "hello.script")
    (sbytes "Hello") 9).2

/-- `psHello` is reachable through the packer API. -/
theorem psHello_reach : PackerReach psHello :=
  PackerReach.step deflateNone initPacker (sbytes "hello.script")
    (sbytes "Hello") 9 PackerReach.init (by decide) (by decide)
    (fun bs n b hb => absurd hb (List.not_mem_nil b))

/-- C3, witness: the theorem applied to the package packed from `psHello`. -/
theorem C3_witness :
    ∃ f, packFile psHello 0 = some f ∧
      crc32 (f.drop headerSize) = leVal (readAt f 32 4) ∧
      f.length = leVal (readAt f 16 8) :=
  ⟨serializeHeader (finalHeader psHello 0) ++ packBody psHello,
    packFile_eq psHello 0 (by decide) (by decide),
    C3_checksum_totalSize psHello 0 _ psHello_reach (by decide)
      (packFile_eq psHello 0 (by decide) (by decide))⟩

/-! ## Claim C8 -/

theorem zip_map_snd_sum {α β : Type} (g : β → Nat) :
    ∀ (l1 : List α) (l2 : List β), l1.length = l2.length →
    ((l1.zip l2).map (fun p => g p.2)).sum = (l2.map g).sum := by
  intro l1
  induction l1 with
  | nil =>
    intro l2 h
    cases l2 with
    | nil => simp
    | cons b t => simp at h
  | cons a t1 ih =>
    intro l2 h
    cases l2 with
    | nil => simp at h
    | cons b t2 =>
      simp only [List.zip_cons_cons, List.map_cons, List.sum_cons]
      rw [ih t2 (by simpa using h)]

theorem assignOffsets_bounds (off : Nat) (l : List (ResourceMetadata × Bytes))
    (hs : ∀ p ∈ l, p.1.size = p.2.length) :
    (∀ md ∈ assignOffsets off l, off ≤ md.offset ∧
      md.offset + md.size ≤ off + ((l.map (fun p => p.2.length)).sum)) ∧
    (assignOffsets off l).Pairwise (fun a b => a.offset + a.size ≤ b.offset) := by
  induction l generalizing off with
  | nil => simp [assignOffsets]
  | cons p rest ih =>
    rcases p with ⟨md, d⟩
    have hsize : md.size = d.length := hs (md, d) (List.mem_cons_self _ _)
    have ihr := ih (off + d.length) (fun q hq => hs q (List.mem_cons_of_mem _ hq))
    constructor
    · intro x hx
      rcases List.mem_cons.1 hx with rfl | hx2
      · refine ⟨Nat.le_refl _, ?_⟩
        dsimp only
        simp only [List.map_cons, List.sum_cons]
        omega
      · have h2 := ihr.1 x hx2
        simp only [List.map_cons, List.sum_cons]
        exact ⟨by omega, by omega⟩
    · refine List.pairwise_cons.2 ⟨?_, ihr.2⟩
      intro x hx
      have h2 := (ihr.1 x hx).1
      dsimp only
      omega

/-- C8: in every package successfully produced by `pack()`, every metadata
record satisfies `sizeof(Header) + resource_count * sizeof(Metadata) ≤
offset` and `offset + size ≤ total_size`, the records are already sorted by
`offset` as written, and pairwise (hence in particular consecutively after
sorting by offset) the payload regions do not overlap:
`offset + size ≤ next.offset`. -/
theorem C8_offset_integrity (ps : PackerState) (t : Nat) (f : Bytes)
    (hr : PackerReach ps) (_hp : packFile ps t = some f) :
    (∀ md ∈ packMeta ps,
      headerSize + metadataSize * ps.metadataList.length ≤ md.offset ∧
      md.offset + md.size ≤ packTotalSize ps) ∧
    (packMeta ps).Pairwise (fun a b => a.offset ≤ b.offset) ∧
    (packMeta ps).Pairwise (fun a b => a.offset + a.size ≤ b.offset) := by
  have hok := reach_ok hr
  have hb := assignOffsets_bounds (packBase ps) (ps.metadataList.zip ps.resourceDataList) hok.sizes
  have hsum : (((ps.metadataList.zip ps.resourceDataList).map (fun p => p.2.length)).sum)
      = ((ps.resourceDataList.map List.length).sum) :=
    zip_map_snd_sum List.length ps.metadataList ps.resourceDataList hok.lens
  refine ⟨?_, ?_, ?_⟩
  · intro md hmd
    have h2 := hb.1 md hmd
    rw [hsum] at h2
    unfold packMeta at hmd
    constructor
    · exact h2.1
    · unfold packTotalSize
      omega
  · exact hb.2.imp (fun h => by omega)
  · exact hb.2

/-- C8, witness: the theorem applied to the `psHello` package. -/
theorem C8_witness :
    (∀ md ∈ packMeta psHello,
      headerSize + metadataSize * psHello.metadataList.length ≤ md.offset ∧
      md.offset + md.size ≤ packTotalSize psHello) ∧
    (packMeta psHello).Pairwise (fun a b => a.offset ≤ b.offset) ∧
    (packMeta psHello).Pairwise (fun a b => a.offset + a.size ≤ b.offset) :=
  C8_offset_integrity psHello 0 _ psHello_reach
    (packFile_eq psHello 0 (by decide) (by decide))


/-! ## Manager (ResourceManager.cpp)

The mutex is a straight-line `lock_guard` on every public method (the code
even re-enters it from internal calls); the model gives the single-threaded
functional semantics of each operation.  zlib's `inflate` is an abstract
parameter `inflate raw originalSize`: `some out` models the library
returning `Z_STREAM_END` after writing `out` into the `originalSize`-byte
output buffer (the code checks neither `avail_out` nor the written amount,
so a short stream leaves the tail of the zero-modelled buffer; an output
longer than the buffer cannot end in `Z_STREAM_END`). -/

/-- `enum class ResourceLoadStatus` (ResourceTypes.h lines 120-126). -/
inductive ResourceLoadStatus
  | UNLOADED
  | LOADING
  | LOADED
  | FAILED
  | UNLOADING
  deriving DecidableEq

/-- A `ResourceItem` (ResourceManager.h lines 22-28): metadata, the payload
pointer (`none` = `nullptr`), the `dataSize` field (kept when the pointer
is freed, exactly as the code leaves it), status and reference count.  The
unused `callbacks`/`dependencies` vectors are omitted. -/
structure ResourceItem where
  metadata : ResourceMetadata
  data : Option Bytes
  dataSize : Nat
  status : ResourceLoadStatus
  referenceCount : Nat
  deriving DecidableEq

/-- The manager's mutable state (ResourceManager.h lines 86-95).
`hotReloadCallbacks` holds opaque registration tokens; `inited` is
`m_initialized`. -/
structure ManagerState where
  inited : Bool
  nameToId : List (Bytes × Nat)
  resources : List (Nat × ResourceItem)
  packageToResources : List (Bytes × List Nat)
  hotReloadCallbacks : List Nat
  totalMemory : Nat
  deriving DecidableEq

/-- The state right after a successful `Initialize`. -/
def initManager : ManagerState :=
  { inited := true, nameToId := [], resources := [],
    packageToResources := [], hotReloadCallbacks := [], totalMemory := 0 }

/-- The file system seen by the manager: package path → file bytes. -/
abbrev Disk := List (Bytes × Bytes)

/-- `ifstream` read of `len` bytes at `pos`: bytes past the end of the file
read as 0 (the destination buffers are value-initialized and a short read
leaves them; the code never checks the stream state on the mount path). -/
def readBytes (f : Bytes) (pos len : Nat) : Bytes :=
  (List.range len).map (fun i => f.getD (pos + i) 0)

/-- `std::string resourceName(metadata.name)`: bytes up to the first NUL. -/
def cstr (bs : Bytes) : Bytes := bs.takeWhile (fun b => b ≠ 0)

/-- One on-disk metadata record, parsed from the raw bytes at `base`
(field offsets per the x86-64 layout of `ResourceMetadata`); the `name`
field keeps the C-string the code converts it to. -/
def parseMetadataRecord (f : Bytes) (base : Nat) : ResourceMetadata :=
  { id := leVal (readBytes f base 4),
    type := leVal (readBytes f (base + 4) 4),
    offset := leVal (readBytes f (base + 8) 8),
    size := leVal (readBytes f (base + 16) 8),
    name := cstr (readBytes f (base + 24) 256),
    flags := leVal (readBytes f (base + 280) 4),
    compressionType := leVal (readBytes f (base + 284) 4),
    originalSize := leVal (readBytes f (base + 288) 8),
    hash := readBytes f (base + 296) 32 }

/-- A freshly registered item (LoadResourcePackage lines 132-141). -/
def newResourceItem (md : ResourceMetadata) : ResourceItem :=
  { metadata := md, data := none, dataSize := 0,
    status := ResourceLoadStatus.UNLOADED, referenceCount := 0 }

/-- Registration of one parsed record (mount loop, lines 121-148): compute
the FNV ID from the name, skip when already present, otherwise insert the
item, bind the name, and append the ID to the package's list. -/
def mountStep (acc : ManagerState × List Nat) (md : ResourceMetadata) :
    ManagerState × List Nat :=
  let s := acc.1
  let id := GenerateAssetID md.name
  if (lookupA s.resources id).isSome then acc
  else
    ({ s with
        resources := s.resources ++ [(id, newResourceItem md)],
        nameToId := updateA s.nameToId md.name id },
     acc.2 ++ [id])

/-- `ResourceManager::LoadResourcePackage` (lines 86-155): check
`m_initialized`, read and magic-check the header, parse the
`resourceCount` records, register each, and unconditionally overwrite
`m_packageToResourcesMap[packagePath]` with the (possibly empty) list of
newly registered IDs. -/
def LoadResourcePackage (s : ManagerState) (packagePath file : Bytes) :
    Bool × ManagerState :=
  if s.inited = false then (false, s)
  else if readBytes file 0 8 ≠ mountMagic then (false, s)
  else
    let count := leVal (readBytes file 12 4)
    let mds := (List.range count).map
      (fun i => parseMetadataRecord file (headerSize + metadataSize * i))
    let r := mds.foldl mountStep (s, [])
    (true, { r.1 with
      packageToResources := updateA r.1.packageToResources packagePath r.2 })

/-- The owning-package search of `LoadResourceFromPackage` (lines 450-458):
the first mounted package whose ID list contains `item.data.metadata.id` —
the on-disk ID, not the FNV-derived key the item is registered under. -/
def findOwningPackage : List (Bytes × List Nat) → Nat → Option Bytes
  | [], _ => none
  | (path, ids) :: rest, rid =>
    if rid ∈ ids then some path else findOwningPackage rest rid

/-- `ResourceManager::DecompressResourceData` (lines 529-602): `NONE`
copies the stored bytes; `DEFLATE` inflates into an `originalSize` buffer
and demands `Z_STREAM_END`; every other tag fails (LZ4/ZSTD/BC7/ASTC stubs
and the unknown-codec default). -/
def DecompressResourceData (inflate : Bytes → Nat → Option Bytes)
    (md : ResourceMetadata) (raw : Bytes) : Option Bytes :=
  if md.compressionType = 0 then some raw
  else if md.compressionType = 1 then
    match inflate raw md.originalSize with
    | none => none
    | some out =>
      if out.length ≤ md.originalSize then
        some (out ++ List.replicate (md.originalSize - out.length) 0)
      else none
  else none

/-- `ResourceManager::LoadResourceFromPackage` (lines 449-502), returning
the decompressed payload: find the owning package (by on-disk ID), open it
on the disk, read `size` bytes at `offset` (failing on a short read), and
decompress.  The caller applies the `m_totalMemoryUsage` increment and the
`data`/`dataSize` stores, as the code does on this item by reference; the
member state it reads is `m_packageToResourcesMap`, passed as `pkgs`. -/
def LoadResourceFromPackage (inflate : Bytes → Nat → Option Bytes)
    (disk : Disk) (pkgs : List (Bytes × List Nat)) (item : ResourceItem) :
    Option Bytes :=
  match findOwningPackage pkgs item.metadata.id with
  | none => none
  | some path =>
    match lookupA disk path with
    | none => none
    | some file =>
      if item.metadata.offset + item.metadata.size ≤ file.length then
        DecompressResourceData inflate item.metadata
          (readAt file item.metadata.offset item.metadata.size)
      else none

/-- `ResourceManager::AddResourceRef` (lines 281-288). -/
def AddResourceRef (s : ManagerState) (id : Nat) : ManagerState :=
  match lookupA s.resources id with
  | none => s
  | some it =>
    { s with
      resources := updateA s.resources id
        { it with referenceCount := it.referenceCount + 1 } }

/-- `ResourceManager::LoadResource` (lines 211-249): name lookup, type
check, ref-count bump when already `LOADED`, otherwise the
load-from-package path; on success sets `LOADED` and bumps the ref count,
on failure returns 0 leaving the state untouched (no status is written on
this path — in particular never `FAILED`). -/
def LoadResource (inflate : Bytes → Nat → Option Bytes) (disk : Disk)
    (s : ManagerState) (name : Bytes) (ty : Nat) : Nat × ManagerState :=
  match lookupA s.nameToId name with
  | none => (0, s)
  | some id =>
    match lookupA s.resources id with
    | none => (0, s)
    | some item =>
      if item.metadata.type ≠ ty then (0, s)
      else if item.status = ResourceLoadStatus.LOADED then
        (id, AddResourceRef s id)
      else
        match LoadResourceFromPackage inflate disk s.packageToResources item with
        | none => (0, s)
        | some bs =>
          let item2 := { item with
            data := some bs, dataSize := bs.length,
            status := ResourceLoadStatus.LOADED }
          let s2 := { s with
            resources := updateA s.resources id item2,
            totalMemory := s.totalMemory + bs.length }
          (id, AddResourceRef s2 id)

/-- `ResourceManager::ReleaseResource` (lines 290-309): decrement if
positive; when the count reaches 0 on a `LOADED` item, free the payload,
subtract `dataSize` from the memory counter (leaving the stale `dataSize`
field), and mark `UNLOADED`. -/
def ReleaseResource (s : ManagerState) (id : Nat) : ManagerState :=
  match lookupA s.resources id with
  | none => s
  | some it =>
    if it.referenceCount = 0 then s
    else
      let it2 := { it with referenceCount := it.referenceCount - 1 }
      if it2.referenceCount = 0 ∧ it2.status = ResourceLoadStatus.LOADED then
        match it2.data with
        | some _ =>
          let it3 := { it2 with
            data := (none : Option Bytes),
            status := ResourceLoadStatus.UNLOADED }
          { s with
            resources := updateA s.resources id it3,
            totalMemory := s.totalMemory - it2.dataSize }
        | none =>
          let it3 := { it2 with status := ResourceLoadStatus.UNLOADED }
          { s with resources := updateA s.resources id it3 }
      else { s with resources := updateA s.resources id it2 }

/-- `ResourceManager::ReloadResource` (lines 311-343) together with
`NotifyHotReload` (lines 520-527).  Returns (result, state, the list of
hot-reload invocations `(callback, id)`).  The payload is freed and the
item marked `UNLOADED` before the re-load, so a failed re-load leaves the
item `UNLOADED` (with its reference count untouched) and fires nothing; a
successful one restores `LOADED` and the saved reference count and invokes
every registered callback once with `id`. -/
def ReloadResource (inflate : Bytes → Nat → Option Bytes) (disk : Disk)
    (s : ManagerState) (id : Nat) : Bool × ManagerState × List (Nat × Nat) :=
  match lookupA s.resources id with
  | none => (false, s, [])
  | some it =>
    let refCount := it.referenceCount
    let mem2 := match it.data with
      | some _ => s.totalMemory - it.dataSize
      | none => s.totalMemory
    let it2 := { it with
      data := (none : Option Bytes),
      status := ResourceLoadStatus.UNLOADED }
    let s2 := { s with
      resources := updateA s.resources id it2,
      totalMemory := mem2 }
    match LoadResourceFromPackage inflate disk s.packageToResources it2 with
    | none => (false, s2, [])
    | some bs =>
      let it3 := { it2 with
        data := some bs, dataSize := bs.length,
        status := ResourceLoadStatus.LOADED, referenceCount := refCount }
      let s3 := { s2 with
        resources := updateA s2.resources id it3,
        totalMemory := s2.totalMemory + bs.length }
      (true, s3, s.hotReloadCallbacks.map (fun c => (c, id)))

/-- One iteration of the unmount loop (lines 167-195): items with
outstanding references are kept but freed and marked `UNLOADED`; items
without references are erased from `m_resources` and `m_nameToIdMap`
(via `GetResourceName`, i.e. the stored metadata name). -/
def unloadPkgStep (s : ManagerState) (id : Nat) : ManagerState :=
  match lookupA s.resources id with
  | none => s
  | some it =>
    let mem2 := match it.data with
      | some _ => s.totalMemory - it.dataSize
      | none => s.totalMemory
    if 0 < it.referenceCount then
      let it2 := { it with
        status := ResourceLoadStatus.UNLOADED, data := (none : Option Bytes) }
      { s with
        resources := updateA s.resources id it2,
        totalMemory := mem2 }
    else
      { s with
        resources := eraseA s.resources id,
        nameToId := eraseA s.nameToId it.metadata.name,
        totalMemory := mem2 }

/-- `ResourceManager::UnloadResourcePackage` (lines 157-200). -/
def UnloadResourcePackage (s : ManagerState) (path : Bytes) :
    Bool × ManagerState :=
  match lookupA s.packageToResources path with
  | none => (false, s)
  | some ids =>
    let s2 := ids.foldl unloadPkgStep s
    (true, { s2 with packageToResources := eraseA s2.packageToResources path })

/-- One iteration of `UnloadUnusedResources` (lines 405-418), carrying the
rebuilt map and the running memory counter. -/
def unusedStep (acc : List (Nat × ResourceItem) × Nat)
    (p : Nat × ResourceItem) : List (Nat × ResourceItem) × Nat :=
  if p.2.referenceCount = 0 ∧ p.2.status = ResourceLoadStatus.LOADED then
    match p.2.data with
    | some _ =>
      (acc.1 ++ [(p.1, { p.2 with
        data := (none : Option Bytes),
        status := ResourceLoadStatus.UNLOADED })], acc.2 - p.2.dataSize)
    | none =>
      (acc.1 ++ [(p.1, { p.2 with
        status := ResourceLoadStatus.UNLOADED })], acc.2)
  else (acc.1 ++ [p], acc.2)

/-- `ResourceManager::UnloadUnusedResources` (lines 402-419): free every
`LOADED` item with zero references, adjusting the memory counter as the
loop goes. -/
def UnloadUnusedResources (s : ManagerState) : ManagerState :=
  let r := s.resources.foldl unusedStep ([], s.totalMemory)
  { s with resources := r.1, totalMemory := r.2 }

/-- The per-item action of `UnloadAllResources` (lines 424-430): free the
payload if resident (the status write sits inside that null check). -/
def freeAllStep (p : Nat × ResourceItem) : Nat × ResourceItem :=
  match p.2.data with
  | some _ => (p.1, { p.2 with
      data := (none : Option Bytes),
      status := ResourceLoadStatus.UNLOADED })
  | none => p

/-- `ResourceManager::UnloadAllResources` (lines 421-433): free every
resident payload, mark those items `UNLOADED`, and zero the counter. -/
def UnloadAllResources (s : ManagerState) : ManagerState :=
  { s with
    resources := s.resources.map freeAllStep,
    totalMemory := 0 }


/-! ## Concrete manager scenarios

`craft rid` is an input test vector: a well-formed package file with a
valid `"AMBPKG01"` magic, one `SCRIPT` resource named `hello` with the
5-byte payload `"Hello"`, and `rid` in the on-disk `id` field.  The packer
itself writes `rid = 1` (sequential); `rid = FNV1a32("hello")` is the value
the manager's load path would need to find the owning package. -/

/-- An inflate stub that always fails (only `NONE`-compressed payloads are
exercised concretely). -/
def inflNone : Bytes → Nat → Option Bytes := fun _ _ => none

def md1 : ResourceMetadata :=
  { id := 1, type := 9, offset := 400, size := 5, name := sbytes "hello",
    flags := 0, compressionType := 0, originalSize := 5,
    hash := List.replicate 32 0 }

def craft (rid : Nat) : Bytes :=
  mountMagic ++ u32le 1 ++ u32le 1 ++ u64le 405 ++ u64le 0 ++ u32le 0 ++
  List.replicate 20 0 ++ serializeMetadata { md1 with id := rid } ++
  sbytes "Hello"

def pkgPath : Bytes := sbytes "test.pkg"

theorem lookupA_updateA_self {α β : Type} [DecidableEq α]
    (l : List (α × β)) (k : α) (v : β) : lookupA (updateA l k v) k = some v := by
  induction l with
  | nil => simp [updateA, lookupA]
  | cons p r ih =>
    rcases p with ⟨k2, w⟩
    by_cases hk : k = k2
    · simp [updateA, lookupA, hk]
    · simp [updateA, lookupA, hk, ih]

/-! ## Claim C1 -/

set_option maxRecDepth 1000000 in
/-- C1: the claim's scenario evaluated on the code.  Packing
`hello.script` (bytes `"Hello"`, level 0) and mounting the produced file
fails outright — the packer clobbers the magic to `"AMBPKG0\0"` while
mount requires `"AMBPKG01"` — so `load("hello", SCRIPT)` returns 0 (no
resource is registered) instead of the claimed `FNV1a32("hello")` with a
`LOADED` item.  Moreover, even on a file identical except for a valid
magic (`craft 1`, carrying the packer's sequential on-disk id 1), mount
succeeds but the load still returns 0 with the item left `UNLOADED`,
because the owning-package search looks for the on-disk id 1 in the list
holding the FNV-derived id `1335831723`. -/
theorem C1_pack_mount_load_fails :
    (let f := serializeHeader (finalHeader psHello 0) ++ packBody psHello
     let m := LoadResourcePackage initManager pkgPath f
     let r := LoadResource inflNone [(pkgPath, f)] m.2 (sbytes "hello") 9
     packFile psHello 0 = some f ∧
     m.1 = false ∧ m.2 = initManager ∧
     r.1 = 0 ∧ r.1 ≠ GenerateAssetID (sbytes "hello")) ∧
    (let s := (LoadResourcePackage initManager pkgPath (craft 1)).2
     (LoadResourcePackage initManager pkgPath (craft 1)).1 = true ∧
     LoadResource inflNone [(pkgPath, craft 1)] s (sbytes "hello") 9 = (0, s) ∧
     (lookupA s.resources (GenerateAssetID (sbytes "hello"))).map
       (fun it => it.status) = some ResourceLoadStatus.UNLOADED) := by
  constructor
  · refine ⟨packFile_eq psHello 0 (by decide) (by decide), by decide, by decide,
      by decide, by decide⟩
  · refine ⟨by decide, by decide, by decide⟩

/-! ## Claim C5 -/

set_option maxRecDepth 1000000 in
/-- C5, counterexample: a failing load (valid magic, but the owning-package
search cannot find on-disk id 1 among the FNV-derived ids) returns 0 yet
leaves the item's status `UNLOADED`, not the claimed `FAILED`. -/
theorem C5_counterexample :
    (let s := (LoadResourcePackage initManager pkgPath (craft 1)).2
     let r := LoadResource inflNone [(pkgPath, craft 1)] s (sbytes "hello") 9
     r.1 = 0 ∧
     (lookupA r.2.resources 1335831723).map (fun it => it.status)
       = some ResourceLoadStatus.UNLOADED ∧
     ResourceLoadStatus.UNLOADED ≠ ResourceLoadStatus.FAILED) := by
  refine ⟨by decide, by decide, by decide⟩

/-- C5, amended: when the load-from-package path fails for any reason
(package not found, open failure, short read, decompression error —
`LoadResourceFromPackage` returning `none` covers them all), `load`
returns 0 and leaves the manager state — in particular the item's status —
entirely unchanged; no `FAILED` status is ever stored on this path. -/
theorem C5_load_failure_returns_zero (inflate : Bytes → Nat → Option Bytes)
    (disk : Disk) (s : ManagerState) (name : Bytes) (ty : Nat)
    (id : Nat) (item : ResourceItem)
    (h1 : lookupA s.nameToId name = some id)
    (h2 : lookupA s.resources id = some item)
    (h3 : item.metadata.type = ty)
    (h4 : item.status ≠ ResourceLoadStatus.LOADED)
    (h5 : LoadResourceFromPackage inflate disk s.packageToResources item = none) :
    LoadResource inflate disk s name ty = (0, s) := by
  simp [LoadResource, h1, h2, h3, h4, h5]

set_option maxRecDepth 1000000 in
/-- C5, witness: the amended theorem at the concrete failing load. -/
theorem C5_witness :
    LoadResource inflNone [(pkgPath, craft 1)]
      (LoadResourcePackage initManager pkgPath (craft 1)).2 (sbytes "hello") 9
      = (0, (LoadResourcePackage initManager pkgPath (craft 1)).2) :=
  C5_load_failure_returns_zero inflNone [(pkgPath, craft 1)] _ (sbytes "hello") 9
    1335831723
    (newResourceItem (parseMetadataRecord (craft 1) headerSize))
    (by decide) (by decide) (by decide) (by decide) (by decide)

/-! ## Claim C7 -/

theorem count_pair_map (l : List Nat) (i c : Nat) :
    ((l.map (fun x => (x, i))).count (c, i)) = l.count c := by
  induction l with
  | nil => rfl
  | cons a t ih => simp [List.count_cons, ih]

/-- C7: for an existing resource id with reference count `n`:
a failed reload leaves the item `UNLOADED` with reference count `n` and
fires no subscriber; a successful reload re-reads the payload through the
load-from-package path, leaves the item `LOADED` with reference count `n`,
and invokes every registered hot-reload subscriber exactly once with that
id (the invocation list is exactly one `(callback, id)` entry per
registration). -/
theorem C7_reload_semantics (inflate : Bytes → Nat → Option Bytes)
    (disk : Disk) (s : ManagerState) (id : Nat) (it : ResourceItem)
    (h : lookupA s.resources id = some it) :
    ((ReloadResource inflate disk s id).1 = false →
      (ReloadResource inflate disk s id).2.2 = [] ∧
      (lookupA (ReloadResource inflate disk s id).2.1.resources id).map
        (fun x => (x.status, x.referenceCount))
        = some (ResourceLoadStatus.UNLOADED, it.referenceCount)) ∧
    ((ReloadResource inflate disk s id).1 = true →
      ∃ bs, LoadResourceFromPackage inflate disk s.packageToResources
          { it with data := none, status := ResourceLoadStatus.UNLOADED }
          = some bs ∧
        (lookupA (ReloadResource inflate disk s id).2.1.resources id).map
          (fun x => (x.status, x.referenceCount, x.data))
          = some (ResourceLoadStatus.LOADED, it.referenceCount, some bs) ∧
        (ReloadResource inflate disk s id).2.2
          = s.hotReloadCallbacks.map (fun c => (c, id)) ∧
        (∀ c, ((ReloadResource inflate disk s id).2.2.count (c, id))
          = s.hotReloadCallbacks.count c)) := by
  rcases hload : LoadResourceFromPackage inflate disk s.packageToResources
      { it with data := none, status := ResourceLoadStatus.UNLOADED }
      with _ | bs
  · constructor
    · intro _
      simp [ReloadResource, h, hload, lookupA_updateA_self]
    · intro htrue
      simp [ReloadResource, h, hload] at htrue
  · constructor
    · intro hfalse
      simp [ReloadResource, h, hload] at hfalse
    · intro _
      refine ⟨bs, rfl, ?_, ?_, ?_⟩
      · simp [ReloadResource, h, hload, lookupA_updateA_self]
      · simp [ReloadResource, h, hload]
      · intro c
        simp only [ReloadResource, h, hload]
        exact count_pair_map s.hotReloadCallbacks id c

/-- The crafted-package disk used for the reload witness. -/
def dsk1 : Disk := [(pkgPath, craft 1335831723)]

/-- Manager state after mounting `craft 1335831723`, loading `hello`
(reference count 1) and registering hot-reload callback token 7. -/
def s1c : ManagerState :=
  { (LoadResource inflNone dsk1
      (LoadResourcePackage initManager pkgPath (craft 1335831723)).2
      (sbytes "hello") 9).2 with hotReloadCallbacks := [7] }

/-- The loaded `hello` item of `s1c`. -/
def it1c : ResourceItem :=
  { metadata := parseMetadataRecord (craft 1335831723) headerSize,
    data := some (sbytes "Hello"), dataSize := 5,
    status := ResourceLoadStatus.LOADED, referenceCount := 1 }

set_option maxRecDepth 1000000 in
/-- C7, witness: the theorem applied to a concrete successful reload
(crafted package whose on-disk id equals the FNV id, so the owning-package
search succeeds). -/
theorem C7_witness :
    ((ReloadResource inflNone dsk1 s1c 1335831723).1 = false →
      (ReloadResource inflNone dsk1 s1c 1335831723).2.2 = [] ∧
      (lookupA (ReloadResource inflNone dsk1 s1c 1335831723).2.1.resources
          1335831723).map (fun x => (x.status, x.referenceCount))
        = some (ResourceLoadStatus.UNLOADED, it1c.referenceCount)) ∧
    ((ReloadResource inflNone dsk1 s1c 1335831723).1 = true →
      ∃ bs, LoadResourceFromPackage inflNone dsk1 s1c.packageToResources
          { it1c with data := none, status := ResourceLoadStatus.UNLOADED }
          = some bs ∧
        (lookupA (ReloadResource inflNone dsk1 s1c 1335831723).2.1.resources
            1335831723).map (fun x => (x.status, x.referenceCount, x.data))
          = some (ResourceLoadStatus.LOADED, it1c.referenceCount, some bs) ∧
        (ReloadResource inflNone dsk1 s1c 1335831723).2.2
          = s1c.hotReloadCallbacks.map (fun c => (c, 1335831723)) ∧
        (∀ c, ((ReloadResource inflNone dsk1 s1c 1335831723).2.2.count
            (c, 1335831723)) = s1c.hotReloadCallbacks.count c)) :=
  C7_reload_semantics inflNone dsk1 s1c 1335831723 it1c (by decide)

set_option maxRecDepth 1000000 in
/-- The witness reload does succeed, re-reading the payload. -/
example :
    (ReloadResource inflNone dsk1 s1c 1335831723).1 = true ∧
    (ReloadResource inflNone dsk1 s1c 1335831723).2.2 = [(7, 1335831723)] := by
  refine ⟨by decide, by decide⟩

/-! ## Claim C10 -/

theorem findOwningPackage_eq_none (pkgs : List (Bytes × List Nat)) (rid : Nat)
    (h : ∀ q ∈ pkgs, rid ∉ q.2) : findOwningPackage pkgs rid = none := by
  induction pkgs with
  | nil => rfl
  | cons q rest ih =>
    have h1 : rid ∉ q.2 := h q (List.mem_cons_self _ _)
    rcases q with ⟨path, ids⟩
    simp only [findOwningPackage, if_neg h1]
    exact ih (fun p hp => h p (List.mem_cons_of_mem _ hp))

/-- The synchronous load path fails with `(0, s)` whenever the
load-from-package step yields nothing (shared by several claims). -/
theorem loadFails_of_fromPackage_none (inflate : Bytes → Nat → Option Bytes)
    (disk : Disk) (s : ManagerState) (name : Bytes) (ty : Nat)
    (id : Nat) (item : ResourceItem)
    (h1 : lookupA s.nameToId name = some id)
    (h2 : lookupA s.resources id = some item)
    (h3 : item.metadata.type = ty)
    (h4 : item.status ≠ ResourceLoadStatus.LOADED)
    (h5 : LoadResourceFromPackage inflate disk s.packageToResources item = none) :
    LoadResource inflate disk s name ty = (0, s) := by
  simp [LoadResource, h1, h2, h3, h4, h5]

theorem mountStep_skips (l : List ResourceMetadata) :
    ∀ (s : ManagerState) (acc : List Nat),
    (∀ md ∈ l, (lookupA s.resources (GenerateAssetID md.name)).isSome) →
    l.foldl mountStep (s, acc) = (s, acc) := by
  induction l with
  | nil => intro s acc _; rfl
  | cons md rest ih =>
    intro s acc h
    have h1 : (lookupA s.resources (GenerateAssetID md.name)).isSome =
        true := h md (List.mem_cons_self _ _)
    simp only [List.foldl_cons, mountStep, h1, if_pos]
    exact ih s acc (fun x hx => h x (List.mem_cons_of_mem _ hx))

/-- Mounting a file whose records all carry already-registered names, from
a state with the given resources: success, and the path is bound to `[]`. -/
theorem mount_all_registered (s : ManagerState) (path file : Bytes)
    (hinit : s.inited = true)
    (hmagic : readBytes file 0 8 = mountMagic)
    (hall : ∀ i ∈ List.range (leVal (readBytes file 12 4)),
      (lookupA s.resources (GenerateAssetID
        (parseMetadataRecord file (headerSize + metadataSize * i)).name)).isSome) :
    LoadResourcePackage s path file
      = (true, { s with
          packageToResources := updateA s.packageToResources path [] }) := by
  have hfold : ((List.range (leVal (readBytes file 12 4))).map
      (fun i => parseMetadataRecord file (headerSize + metadataSize * i))).foldl
        mountStep (s, []) = (s, []) := by
    refine mountStep_skips _ s [] ?_
    intro md hmd
    rcases List.mem_map.1 hmd with ⟨i, hi, rfl⟩
    exact hall i hi
  unfold LoadResourcePackage
  simp [hinit, hmagic, hfold]

/-- C10, amended: mounting a package file all of whose records carry
already-registered names returns success but unconditionally overwrites
`package_to_ids[path]` with the empty sequence.  Afterwards (i) a load of
any name whose item is not currently resident and whose on-disk metadata id
no mounted package owns fails with 0 and no state change, and (ii)
unmounting the path (which iterates the now-empty id list, so the stale
registrations survive) and mounting the file again merely re-binds the path
to the empty sequence — the package's resources do not become loadable
again.  (A name whose item is still `LOADED` keeps being served from the
ref-count fast path — see the counterexample.) -/
theorem C10_double_mount (s : ManagerState) (path file : Bytes)
    (hinit : s.inited = true)
    (hmagic : readBytes file 0 8 = mountMagic)
    (hall : ∀ i ∈ List.range (leVal (readBytes file 12 4)),
      (lookupA s.resources (GenerateAssetID
        (parseMetadataRecord file (headerSize + metadataSize * i)).name)).isSome) :
    (LoadResourcePackage s path file).1 = true ∧
    (LoadResourcePackage s path file).2
      = { s with packageToResources := updateA s.packageToResources path [] } ∧
    (∀ (inflate : Bytes → Nat → Option Bytes) (disk : Disk)
      (name : Bytes) (ty id : Nat) (item : ResourceItem),
      lookupA (LoadResourcePackage s path file).2.nameToId name = some id →
      lookupA (LoadResourcePackage s path file).2.resources id = some item →
      item.status ≠ ResourceLoadStatus.LOADED →
      (∀ q ∈ (LoadResourcePackage s path file).2.packageToResources,
        item.metadata.id ∉ q.2) →
      LoadResource inflate disk (LoadResourcePackage s path file).2 name ty
        = (0, (LoadResourcePackage s path file).2)) ∧
    ((LoadResourcePackage (UnloadResourcePackage
        (LoadResourcePackage s path file).2 path).2 path file).1 = true ∧
     lookupA (LoadResourcePackage (UnloadResourcePackage
        (LoadResourcePackage s path file).2 path).2 path file).2.packageToResources
        path = some []) := by
  have hmount := mount_all_registered s path file hinit hmagic hall
  have hs2 : (LoadResourcePackage s path file).2
      = { s with packageToResources := updateA s.packageToResources path [] } := by
    rw [hmount]
  have hunmount : (UnloadResourcePackage (LoadResourcePackage s path file).2 path).2
      = { s with
          packageToResources :=
            eraseA (updateA s.packageToResources path []) path } := by
    rw [hs2]
    unfold UnloadResourcePackage
    rw [lookupA_updateA_self]
    rfl
  have hremount := mount_all_registered
    { s with
      packageToResources :=
        eraseA (updateA s.packageToResources path []) path } path file
    hinit hmagic hall
  refine ⟨by rw [hmount], hs2, ?_, ?_, ?_⟩
  · intro inflate disk name ty id item hname hres hstatus howner
    by_cases hty : item.metadata.type = ty
    · refine loadFails_of_fromPackage_none inflate disk _ name ty id item
        hname hres hty hstatus ?_
      unfold LoadResourceFromPackage
      rw [findOwningPackage_eq_none _ _ howner]
    · simp [LoadResource, hname, hres, hty]
  · rw [hunmount, hremount]
  · rw [hunmount, hremount]
    simp [lookupA_updateA_self]

set_option maxRecDepth 1000000 in
/-- C10, counterexample to the claim as stated, on the crafted package
(on-disk id = FNV id, the only setting in which loads can succeed at all).
(i) After load (item `LOADED`, ref count 1) and a second mount of the same
path, `load("hello", SCRIPT)` does **not** fail: the ref-count fast path
returns the nonzero id.  (ii) In a fresh double-mounted state,
unmount + remount does **not** make the load succeed again: the id list
stays empty and the load still returns 0, against the claim's "until the
package is unmounted and mounted again". -/
theorem C10_counterexample :
    (let s1 := (LoadResourcePackage initManager pkgPath (craft 1335831723)).2
     let s2 := (LoadResource inflNone dsk1 s1 (sbytes "hello") 9).2
     let m2 := LoadResourcePackage s2 pkgPath (craft 1335831723)
     m2.1 = true ∧
     lookupA m2.2.packageToResources pkgPath = some [] ∧
     (LoadResource inflNone dsk1 m2.2 (sbytes "hello") 9).1 = 1335831723 ∧
     (1335831723 : Nat) ≠ 0) ∧
    (let sd := (LoadResourcePackage (LoadResourcePackage initManager pkgPath
        (craft 1335831723)).2 pkgPath (craft 1335831723)).2
     let sr := (LoadResourcePackage (UnloadResourcePackage sd pkgPath).2
        pkgPath (craft 1335831723)).2
     lookupA sr.packageToResources pkgPath = some [] ∧
     (LoadResource inflNone dsk1 sr (sbytes "hello") 9).1 = 0) := by
  exact ⟨⟨by decide, by decide, by decide, by decide⟩, by decide, by decide⟩

set_option maxRecDepth 1000000 in
/-- C10, witness: the amended theorem applied to a double mount of the
crafted package in a fresh state. -/
theorem C10_witness :
    ((LoadResourcePackage (LoadResourcePackage initManager pkgPath
        (craft 1335831723)).2 pkgPath (craft 1335831723)).1 = true ∧
     LoadResource inflNone dsk1
       (LoadResourcePackage (LoadResourcePackage initManager pkgPath
          (craft 1335831723)).2 pkgPath (craft 1335831723)).2
       (sbytes "hello") 9
       = (0, (LoadResourcePackage (LoadResourcePackage initManager pkgPath
            (craft 1335831723)).2 pkgPath (craft 1335831723)).2)) := by
  have h := C10_double_mount
    (LoadResourcePackage initManager pkgPath (craft 1335831723)).2
    pkgPath (craft 1335831723) (by decide) (by decide) (by decide)
  refine ⟨h.1, ?_⟩
  exact h.2.2.1 inflNone dsk1 (sbytes "hello") 9 1335831723
    (newResourceItem (parseMetadataRecord (craft 1335831723) headerSize))
    (by decide) (by decide) (by decide) (by decide)


/-! ## Claim C9: the memory-accounting invariant -/

/-- The contribution of one item to the claimed sum: `dataSize` when
`LOADED`, else nothing. -/
def contrib (it : ResourceItem) : Nat :=
  if it.status = ResourceLoadStatus.LOADED then it.dataSize else 0

/-- Sum of contributions over the resource map. -/
def memSum (rs : List (Nat × ResourceItem)) : Nat :=
  (rs.map (fun p => contrib p.2)).sum

/-- Per-item well-formedness the manager maintains: the payload pointer is
present exactly on `LOADED` items, and `dataSize` is the payload length
whenever a payload is present. -/
def itemOK (it : ResourceItem) : Prop :=
  (it.status = ResourceLoadStatus.LOADED ↔ it.data ≠ none) ∧
  (∀ bs, it.data = some bs → it.dataSize = bs.length)

/-- The manager-state invariant: distinct resource keys, well-formed
items, and an exact memory counter. -/
structure MInv (s : ManagerState) : Prop where
  nodup : (s.resources.map Prod.fst).Nodup
  items : ∀ p ∈ s.resources, itemOK p.2
  mem : s.totalMemory = memSum s.resources

theorem MInv.congr {s s2 : ManagerState} (h : MInv s)
    (hr : s2.resources = s.resources) (hm : s2.totalMemory = s.totalMemory) :
    MInv s2 := by
  refine ⟨?_, ?_, ?_⟩ <;> rw [hr]
  · exact h.nodup
  · exact h.items
  · rw [hm, h.mem]

theorem lookupA_mem {α β : Type} [DecidableEq α] {l : List (α × β)} {k : α}
    {v : β} (h : lookupA l k = some v) : (k, v) ∈ l := by
  induction l with
  | nil => simp [lookupA] at h
  | cons p r ih =>
    rcases p with ⟨k2, w⟩
    by_cases hk : k = k2
    · subst hk
      simp [lookupA] at h
      simp [h]
    · simp [lookupA, hk] at h
      exact List.mem_cons_of_mem _ (ih h)

theorem lookupA_eq_none_iff {α β : Type} [DecidableEq α] (l : List (α × β))
    (k : α) : lookupA l k = none ↔ k ∉ l.map Prod.fst := by
  induction l with
  | nil => simp [lookupA]
  | cons p r ih =>
    rcases p with ⟨k2, w⟩
    by_cases hk : k = k2
    · subst hk
      simp [lookupA]
    · simp [lookupA, hk, ih, Ne.symm hk]

theorem memSum_updateA {l : List (Nat × ResourceItem)} {k : Nat}
    {v : ResourceItem} (v2 : ResourceItem) (h : lookupA l k = some v) :
    memSum (updateA l k v2) + contrib v = memSum l + contrib v2 := by
  induction l with
  | nil => simp [lookupA] at h
  | cons p r ih =>
    rcases p with ⟨k2, w⟩
    by_cases hk : k = k2
    · subst hk
      simp [lookupA] at h
      subst h
      simp [updateA, memSum]
      omega
    · simp [lookupA, hk] at h
      have ih2 := ih h
      simp [updateA, hk, memSum] at ih2 ⊢
      omega

theorem map_fst_updateA {α β : Type} [DecidableEq α] {l : List (α × β)}
    {k : α} {v : β} (v2 : β) (h : lookupA l k = some v) :
    (updateA l k v2).map Prod.fst = l.map Prod.fst := by
  induction l with
  | nil => simp [lookupA] at h
  | cons p r ih =>
    rcases p with ⟨k2, w⟩
    by_cases hk : k = k2
    · subst hk
      simp [updateA]
    · simp [lookupA, hk] at h
      simp [updateA, hk, ih h]

theorem items_updateA {l : List (Nat × ResourceItem)} {k : Nat}
    {v2 : ResourceItem} (P : ResourceItem → Prop)
    (h : ∀ p ∈ l, P p.2) (h2 : P v2) : ∀ p ∈ updateA l k v2, P p.2 := by
  induction l with
  | nil =>
    intro p hp
    simp [updateA] at hp
    simp [hp, h2]
  | cons q r ih =>
    rcases q with ⟨k2, w⟩
    intro p hp
    by_cases hk : k = k2
    · simp [updateA, hk] at hp
      rcases hp with hp | hp
      · simp [hp, h2]
      · exact h p (List.mem_cons_of_mem _ hp)
    · simp only [updateA, if_neg hk] at hp
      rcases List.mem_cons.1 hp with rfl | hp2
      · exact h _ (List.mem_cons_self _ _)
      · exact ih (fun q hq => h q (List.mem_cons_of_mem _ hq)) p hp2

theorem eraseA_sublist {α β : Type} [DecidableEq α] (l : List (α × β))
    (k : α) : (eraseA l k).Sublist l := by
  induction l with
  | nil => simp [eraseA]
  | cons p r ih =>
    rcases p with ⟨k2, w⟩
    by_cases hk : k = k2
    · simp [eraseA, hk]
    · simpa [eraseA, hk] using ih.cons₂ (k2, w)

theorem memSum_eraseA {l : List (Nat × ResourceItem)} {k : Nat}
    {v : ResourceItem} (h : lookupA l k = some v) :
    memSum (eraseA l k) + contrib v = memSum l := by
  induction l with
  | nil => simp [lookupA] at h
  | cons p r ih =>
    rcases p with ⟨k2, w⟩
    by_cases hk : k = k2
    · subst hk
      simp [lookupA] at h
      subst h
      simp [eraseA, memSum]
      omega
    · simp [lookupA, hk] at h
      have ih2 := ih h
      simp [eraseA, hk, memSum] at ih2 ⊢
      omega

theorem contrib_le_memSum {l : List (Nat × ResourceItem)} {k : Nat}
    {v : ResourceItem} (h : lookupA l k = some v) : contrib v ≤ memSum l := by
  have h2 := memSum_eraseA h
  omega

theorem memSum_append (l : List (Nat × ResourceItem)) (p : Nat × ResourceItem) :
    memSum (l ++ [p]) = memSum l + contrib p.2 := by
  simp [memSum]


theorem itemOK_newResourceItem (md : ResourceMetadata) :
    itemOK (newResourceItem md) := by
  constructor
  · simp [newResourceItem]
  · intro bs h
    simp [newResourceItem] at h

theorem mountStep_inv {s : ManagerState} (md : ResourceMetadata)
    (acc : List Nat) (h : MInv s) : MInv ((mountStep (s, acc) md).1) := by
  unfold mountStep
  cases hl : lookupA s.resources (GenerateAssetID md.name) with
  | some v =>
    simp only [hl, Option.isSome_some, if_true]
    exact h
  | none =>
    simp only [hl, Option.isSome_none, Bool.false_eq_true, if_false]
    refine ⟨?_, ?_, ?_⟩
    · rw [List.map_append]
      refine List.Nodup.append h.nodup (by simp) ?_
      intro a ha hb
      simp at hb
      subst hb
      exact absurd ha ((lookupA_eq_none_iff _ _).1 hl)
    · intro p hp
      rcases List.mem_append.1 hp with h2 | h2
      · exact h.items p h2
      · simp at h2
        subst h2
        exact itemOK_newResourceItem md
    · rw [memSum_append]
      simp [contrib, newResourceItem, h.mem]

theorem mount_fold_inv (l : List ResourceMetadata) :
    ∀ (s : ManagerState) (acc : List Nat), MInv s →
    MInv ((l.foldl mountStep (s, acc)).1) := by
  induction l with
  | nil => intro s acc h; exact h
  | cons md rest ih =>
    intro s acc h
    rw [List.foldl_cons]
    have h2 := mountStep_inv md acc h
    rcases hstep : mountStep (s, acc) md with ⟨s2, acc2⟩
    rw [hstep] at h2
    exact ih s2 acc2 h2

theorem MInv_setPkgs {s : ManagerState} (pkgs : List (Bytes × List Nat))
    (h : MInv s) : MInv { s with packageToResources := pkgs } :=
  ⟨h.nodup, h.items, h.mem⟩

theorem LoadResourcePackage_inv {s : ManagerState} (path file : Bytes)
    (h : MInv s) : MInv (LoadResourcePackage s path file).2 := by
  unfold LoadResourcePackage
  by_cases h1 : s.inited = false
  · simp only [h1, if_pos]
    exact h
  · simp only [h1, Bool.false_eq_true, if_false]
    by_cases h2 : readBytes file 0 8 ≠ mountMagic
    · simp only [if_pos h2]
      exact h
    · simp only [if_neg h2]
      exact MInv_setPkgs _ (mount_fold_inv _ s [] h)


/-- The invariant survives an in-place item update whose memory counter
moves by the difference of the old and new contributions. -/
theorem MInv_update {s : ManagerState} {id : Nat} {it : ResourceItem}
    (it2 : ResourceItem) (m2 : Nat) (h : MInv s)
    (hl : lookupA s.resources id = some it) (hOK2 : itemOK it2)
    (hm : m2 + contrib it = s.totalMemory + contrib it2) :
    MInv { s with resources := updateA s.resources id it2,
                  totalMemory := m2 } := by
  refine ⟨?_, ?_, ?_⟩
  · simpa [map_fst_updateA it2 hl] using h.nodup
  · exact items_updateA itemOK h.items hOK2
  · have heq := memSum_updateA it2 hl
    rw [h.mem] at hm
    simp only []
    omega

/-- The invariant survives erasing an item whose contribution leaves the
memory counter. -/
theorem MInv_erase {s : ManagerState} {id : Nat} {it : ResourceItem}
    (m2 : Nat) (nm : Bytes) (h : MInv s)
    (hl : lookupA s.resources id = some it)
    (hm : m2 + contrib it = s.totalMemory) :
    MInv { s with resources := eraseA s.resources id,
                  nameToId := eraseA s.nameToId nm,
                  totalMemory := m2 } := by
  refine ⟨?_, ?_, ?_⟩
  · exact h.nodup.sublist ((eraseA_sublist _ _).map Prod.fst)
  · intro p hp
    exact h.items p ((eraseA_sublist _ _).mem hp)
  · have heq := memSum_eraseA hl
    rw [h.mem] at hm
    simp only []
    omega

theorem AddResourceRef_inv {s : ManagerState} (id : Nat) (h : MInv s) :
    MInv (AddResourceRef s id) := by
  unfold AddResourceRef
  cases hl : lookupA s.resources id with
  | none => exact h
  | some it =>
    have hOK := h.items _ (lookupA_mem hl)
    refine MInv_update _ s.totalMemory h hl ⟨hOK.1, hOK.2⟩ ?_
    simp [contrib]

theorem LoadResource_inv {inflate : Bytes → Nat → Option Bytes} {disk : Disk}
    {s : ManagerState} (name : Bytes) (ty : Nat) (h : MInv s) :
    MInv (LoadResource inflate disk s name ty).2 := by
  unfold LoadResource
  cases hn : lookupA s.nameToId name with
  | none => exact h
  | some id =>
    dsimp only
    cases hr : lookupA s.resources id with
    | none => exact h
    | some item =>
      dsimp only
      by_cases hty : item.metadata.type ≠ ty
      · simp only [if_pos hty]
        exact h
      · simp only [if_neg hty]
        by_cases hst : item.status = ResourceLoadStatus.LOADED
        · simp only [if_pos hst]
          exact AddResourceRef_inv id h
        · simp only [if_neg hst]
          cases hload : LoadResourceFromPackage inflate disk
              s.packageToResources item with
          | none => exact h
          | some bs =>
            dsimp only
            refine AddResourceRef_inv id ?_
            refine MInv_update _ (s.totalMemory + bs.length) h hr ?_ ?_
            · constructor
              · simp
              · intro bs2 hbs2
                simp at hbs2
                simp [hbs2]
            · have hc0 : contrib item = 0 := by simp [contrib, hst]
              rw [hc0]
              simp [contrib]

theorem ReleaseResource_inv {s : ManagerState} (id : Nat) (h : MInv s) :
    MInv (ReleaseResource s id) := by
  unfold ReleaseResource
  cases hl : lookupA s.resources id with
  | none => exact h
  | some it =>
    dsimp only
    by_cases hrc : it.referenceCount = 0
    · simp only [if_pos hrc]
      exact h
    · simp only [if_neg hrc]
      have hOK := h.items _ (lookupA_mem hl)
      by_cases hcond : it.referenceCount - 1 = 0 ∧
          it.status = ResourceLoadStatus.LOADED
      · simp only [hcond, and_self, if_pos]
        cases hdata : it.data with
        | none =>
          exact absurd (hOK.1.1 hcond.2) (by simp [hdata])
        | some bs =>
          refine MInv_update _ (s.totalMemory - it.dataSize) h hl ?_ ?_
          · constructor
            · simp
            · intro bs2 hbs2
              simp at hbs2
          · have hc0 : contrib it = it.dataSize := by simp [contrib, hcond.2]
            have hle := contrib_le_memSum hl
            rw [hc0] at hle ⊢
            rw [h.mem]
            simp [contrib]
            omega
      · simp only [if_neg hcond]
        refine MInv_update _ s.totalMemory h hl ⟨hOK.1, hOK.2⟩ ?_
        simp [contrib]


theorem ReloadResource_inv {inflate : Bytes → Nat → Option Bytes}
    {disk : Disk} {s : ManagerState} (id : Nat) (h : MInv s) :
    MInv (ReloadResource inflate disk s id).2.1 := by
  unfold ReloadResource
  cases hl : lookupA s.resources id with
  | none => exact h
  | some it =>
    dsimp only
    have hOK := h.items _ (lookupA_mem hl)
    have hOK2 : itemOK { it with
        data := (none : Option Bytes),
        status := ResourceLoadStatus.UNLOADED } := by
      constructor
      · simp
      · intro bs hbs
        simp at hbs
    cases hd : it.data with
    | none =>
      dsimp only
      have hc0 : contrib it = 0 := by
        have : it.status ≠ ResourceLoadStatus.LOADED := by
          intro h2
          exact absurd (hOK.1.1 h2) (by simp [hd])
        simp [contrib, this]
      have hs2 := MInv_update { it with
          data := (none : Option Bytes),
          status := ResourceLoadStatus.UNLOADED } s.totalMemory h hl hOK2
          (by rw [hc0]; simp [contrib])
      cases hload : LoadResourceFromPackage inflate disk s.packageToResources
          { it with
            data := (none : Option Bytes),
            status := ResourceLoadStatus.UNLOADED } with
      | none => exact hs2
      | some bs =>
        dsimp only
        refine MInv_update _ _ hs2 (lookupA_updateA_self _ _ _) ?_ ?_
        · constructor
          · simp
          · intro bs2 hbs2
            simp at hbs2
            simp [hbs2]
        · simp [contrib]
    | some bs0 =>
      dsimp only
      have hld : it.status = ResourceLoadStatus.LOADED :=
        hOK.1.2 (by simp [hd])
      have hc0 : contrib it = it.dataSize := by simp [contrib, hld]
      have hle := contrib_le_memSum hl
      rw [hc0, ← h.mem] at hle
      have hs2 := MInv_update { it with
          data := (none : Option Bytes),
          status := ResourceLoadStatus.UNLOADED } (s.totalMemory - it.dataSize)
          h hl hOK2 (by rw [hc0]; simp [contrib]; omega)
      cases hload : LoadResourceFromPackage inflate disk s.packageToResources
          { it with
            data := (none : Option Bytes),
            status := ResourceLoadStatus.UNLOADED } with
      | none => exact hs2
      | some bs =>
        dsimp only
        refine MInv_update _ _ hs2 (lookupA_updateA_self _ _ _) ?_ ?_
        · constructor
          · simp
          · intro bs2 hbs2
            simp at hbs2
            simp [hbs2]
        · simp [contrib]

theorem unloadPkgStep_inv {s : ManagerState} (id : Nat) (h : MInv s) :
    MInv (unloadPkgStep s id) := by
  unfold unloadPkgStep
  cases hl : lookupA s.resources id with
  | none => exact h
  | some it =>
    dsimp only
    have hOK := h.items _ (lookupA_mem hl)
    have hmem2 : (match it.data with
        | some _ => s.totalMemory - it.dataSize
        | none => s.totalMemory) + contrib it = s.totalMemory := by
      cases hd : it.data with
      | none =>
        have : it.status ≠ ResourceLoadStatus.LOADED := by
          intro h2
          exact absurd (hOK.1.1 h2) (by simp [hd])
        simp [contrib, this]
      | some bs =>
        have hld : it.status = ResourceLoadStatus.LOADED :=
          hOK.1.2 (by simp [hd])
        have hc0 : contrib it = it.dataSize := by simp [contrib, hld]
        have hle := contrib_le_memSum hl
        rw [hc0, ← h.mem] at hle
        show s.totalMemory - it.dataSize + contrib it = s.totalMemory
        rw [hc0]
        omega
    by_cases hrc : 0 < it.referenceCount
    · simp only [if_pos hrc]
      refine MInv_update _ _ h hl ?_ ?_
      · constructor
        · simp
        · intro bs hbs
          simp at hbs
      · rw [hmem2]
        simp [contrib]
    · simp only [if_neg hrc]
      exact MInv_erase _ it.metadata.name h hl hmem2

theorem UnloadResourcePackage_inv {s : ManagerState} (path : Bytes)
    (h : MInv s) : MInv (UnloadResourcePackage s path).2 := by
  unfold UnloadResourcePackage
  cases hp : lookupA s.packageToResources path with
  | none => exact h
  | some ids =>
    dsimp only
    have hfold : ∀ (l : List Nat) (s2 : ManagerState), MInv s2 →
        MInv (l.foldl unloadPkgStep s2) := by
      intro l
      induction l with
      | nil => intro s2 h2; exact h2
      | cons a t ih =>
        intro s2 h2
        exact ih _ (unloadPkgStep_inv a h2)
    exact MInv_setPkgs _ (hfold ids s h)

theorem unusedFold_inv (l : List (Nat × ResourceItem)) :
    ∀ (accL : List (Nat × ResourceItem)) (accM : Nat),
    (∀ p ∈ l, itemOK p.2) → (∀ p ∈ accL, itemOK p.2) →
    accM = memSum accL + memSum l →
    (l.foldl unusedStep (accL, accM)).2
        = memSum (l.foldl unusedStep (accL, accM)).1 ∧
    (∀ p ∈ (l.foldl unusedStep (accL, accM)).1, itemOK p.2) ∧
    (l.foldl unusedStep (accL, accM)).1.map Prod.fst
        = accL.map Prod.fst ++ l.map Prod.fst := by
  induction l with
  | nil =>
    intro accL accM _ hOKacc hM
    refine ⟨?_, hOKacc, by simp⟩
    simpa [memSum] using hM
  | cons p rest ih =>
    intro accL accM hOKl hOKacc hM
    have hOKp := hOKl p (List.mem_cons_self _ _)
    have hOKrest : ∀ q ∈ rest, itemOK q.2 :=
      fun q hq => hOKl q (List.mem_cons_of_mem _ hq)
    have hMl : memSum (p :: rest) = contrib p.2 + memSum rest := by
      simp [memSum]
    rw [List.foldl_cons]
    by_cases hcond : p.2.referenceCount = 0 ∧
        p.2.status = ResourceLoadStatus.LOADED
    · cases hd : p.2.data with
      | none =>
        exact absurd (hOKp.1.1 hcond.2) (by simp [hd])
      | some bs =>
        have hstep : unusedStep (accL, accM) p
            = (accL ++ [(p.1, { p.2 with
                data := (none : Option Bytes),
                status := ResourceLoadStatus.UNLOADED })],
               accM - p.2.dataSize) := by
          unfold unusedStep
          simp [hcond, hd]
        rw [hstep]
        have hc : contrib p.2 = p.2.dataSize := by simp [contrib, hcond.2]
        have := ih (accL ++ [(p.1, { p.2 with
            data := (none : Option Bytes),
            status := ResourceLoadStatus.UNLOADED })]) (accM - p.2.dataSize)
          hOKrest
          (by
            intro q hq
            rcases List.mem_append.1 hq with h2 | h2
            · exact hOKacc q h2
            · simp at h2
              subst h2
              constructor
              · simp
              · intro bs2 hbs2
                simp at hbs2)
          (by
            rw [memSum_append]
            have hcf : contrib ({ p.2 with
                data := (none : Option Bytes),
                status := ResourceLoadStatus.UNLOADED } : ResourceItem) = 0 := by
              simp [contrib]
            rw [hMl, hc] at hM
            show accM - p.2.dataSize = memSum accL + contrib ({ p.2 with
                data := (none : Option Bytes),
                status := ResourceLoadStatus.UNLOADED } : ResourceItem) + memSum rest
            rw [hcf]
            omega)
        refine ⟨this.1, this.2.1, ?_⟩
        rw [this.2.2]
        simp
    · have hstep : unusedStep (accL, accM) p = (accL ++ [p], accM) := by
        unfold unusedStep
        simp [hcond]
      rw [hstep]
      have := ih (accL ++ [p]) accM hOKrest
        (by
          intro q hq
          rcases List.mem_append.1 hq with h2 | h2
          · exact hOKacc q h2
          · simp at h2
            subst h2
            exact hOKp)
        (by
          rw [memSum_append]
          rw [hMl] at hM
          omega)
      refine ⟨this.1, this.2.1, ?_⟩
      rw [this.2.2]
      simp

theorem UnloadUnusedResources_inv {s : ManagerState} (h : MInv s) :
    MInv (UnloadUnusedResources s) := by
  unfold UnloadUnusedResources
  have hf := unusedFold_inv s.resources [] s.totalMemory h.items
    (by intro p hp; simp at hp) (by simpa [memSum] using h.mem)
  refine ⟨?_, hf.2.1, hf.1⟩
  have hk := hf.2.2
  simp only [List.map_nil, List.nil_append] at hk
  simp only []
  rw [hk]
  exact h.nodup

theorem freeAllStep_facts {p : Nat × ResourceItem} (hOK : itemOK p.2) :
    contrib (freeAllStep p).2 = 0 ∧ itemOK (freeAllStep p).2 ∧
    (freeAllStep p).1 = p.1 := by
  cases hd : p.2.data with
  | none =>
    have hp : freeAllStep p = p := by
      unfold freeAllStep
      rw [hd]
    rw [hp]
    have hst : p.2.status ≠ ResourceLoadStatus.LOADED :=
      fun h2 => absurd hd (hOK.1.1 h2)
    exact ⟨by simp [contrib, hst], hOK, rfl⟩
  | some bs =>
    have hp : freeAllStep p = (p.1, { p.2 with
        data := (none : Option Bytes),
        status := ResourceLoadStatus.UNLOADED }) := by
      unfold freeAllStep
      rw [hd]
    rw [hp]
    refine ⟨by simp [contrib], ?_, rfl⟩
    constructor
    · simp
    · intro bs2 hbs2
      simp at hbs2

theorem UnloadAllResources_inv {s : ManagerState} (h : MInv s) :
    MInv (UnloadAllResources s) := by
  unfold UnloadAllResources
  refine ⟨?_, ?_, ?_⟩
  · simp only [List.map_map]
    have : s.resources.map (Prod.fst ∘ freeAllStep) = s.resources.map Prod.fst := by
      refine List.map_congr_left ?_
      intro p hp
      exact (freeAllStep_facts (h.items p hp)).2.2
    rw [this]
    exact h.nodup
  · intro p hp
    simp only [List.mem_map] at hp
    rcases hp with ⟨q, hq, rfl⟩
    exact (freeAllStep_facts (h.items q hq)).2.1
  · have : memSum (s.resources.map freeAllStep) = 0 := by
      unfold memSum
      rw [List.map_map]
      have h0 : ∀ p ∈ s.resources,
          ((fun p => contrib p.2) ∘ freeAllStep) p = 0 :=
        fun p hp => (freeAllStep_facts (h.items p hp)).1
      rw [List.map_congr_left h0]
      simp
    simp only []
    omega


/-- The manager operations quantified over by the memory-accounting claim. -/
inductive MOp
  | mount (path file : Bytes)
  | load (disk : Disk) (name : Bytes) (ty : Nat)
  | release (id : Nat)
  | reload (disk : Disk) (id : Nat)
  | unmount (path : Bytes)
  | unloadUnused
  | unloadAll

/-- Apply one operation to the state (`load` and `reload` see the disk as
it is at call time, so on-disk changes between operations are allowed). -/
def applyOp (inflate : Bytes → Nat → Option Bytes) (s : ManagerState) :
    MOp → ManagerState
  | MOp.mount path file => (LoadResourcePackage s path file).2
  | MOp.load disk name ty => (LoadResource inflate disk s name ty).2
  | MOp.release id => ReleaseResource s id
  | MOp.reload disk id => (ReloadResource inflate disk s id).2.1
  | MOp.unmount path => (UnloadResourcePackage s path).2
  | MOp.unloadUnused => UnloadUnusedResources s
  | MOp.unloadAll => UnloadAllResources s

/-- Run a sequence of operations from the freshly initialized manager. -/
def runOps (inflate : Bytes → Nat → Option Bytes) (ops : List MOp) :
    ManagerState :=
  ops.foldl (applyOp inflate) initManager

theorem MInv_init : MInv initManager :=
  ⟨by simp [initManager], by simp [initManager], by simp [initManager, memSum]⟩

theorem applyOp_inv (inflate : Bytes → Nat → Option Bytes) (s : ManagerState)
    (op : MOp) (h : MInv s) : MInv (applyOp inflate s op) := by
  cases op with
  | mount path file => exact LoadResourcePackage_inv path file h
  | load disk name ty => exact LoadResource_inv name ty h
  | release id => exact ReleaseResource_inv id h
  | reload disk id => exact ReloadResource_inv id h
  | unmount path => exact UnloadResourcePackage_inv path h
  | unloadUnused => exact UnloadUnusedResources_inv h
  | unloadAll => exact UnloadAllResources_inv h

theorem runOps_inv (inflate : Bytes → Nat → Option Bytes) (ops : List MOp) :
    MInv (runOps inflate ops) := by
  unfold runOps
  have H : ∀ (l : List MOp) (s : ManagerState), MInv s →
      MInv (l.foldl (applyOp inflate) s) := by
    intro l
    induction l with
    | nil => intro s h; exact h
    | cons op rest ih => intro s h; exact ih _ (applyOp_inv inflate s op h)
  exact H ops initManager MInv_init

/-! ## Claim C9 -/

/-- C9: after every sequence of manager operations (`mount`, `load`,
`release`, `reload`, `unmount`, `unload_unused`, `unload_all`) from the
freshly initialized manager, `total_memory` equals the sum of the resident
payload byte lengths over all items whose status is `LOADED`. -/
theorem C9_memory_accounting (inflate : Bytes → Nat → Option Bytes)
    (ops : List MOp) :
    (runOps inflate ops).totalMemory
      = ((runOps inflate ops).resources.map
          (fun p => if p.2.status = ResourceLoadStatus.LOADED
                    then (p.2.data.getD []).length else 0)).sum := by
  have h := runOps_inv inflate ops
  rw [h.mem]
  unfold memSum
  refine congrArg List.sum ?_
  refine List.map_congr_left ?_
  intro p hp
  have hOK := h.items p hp
  by_cases hst : p.2.status = ResourceLoadStatus.LOADED
  · cases hd : p.2.data with
    | none => exact absurd hd (hOK.1.1 hst)
    | some bs =>
      simp only [contrib, hst, if_pos, hd]
      simp [hOK.2 bs hd]
  · simp [contrib, hst]

end AmberPipeline
